import Mathlib

/-!
Xilinx Ethernet Lite MAC model and plugin registry.

A shallow embedding of `hw/net/xilinx_ethlite.c` (register block, frame
reception) and of the registry declared in `plugins/plugin.h`.  The header
gives the registry's data and the signatures of its operations; the bodies of
the operations are modelled from the specification and marked as such.

Conventions of the embedding:

* `uint32_t` and `unsigned int` values are natural numbers below `2 ^ 32`;
  arithmetic that can wrap carries an explicit `% 2 ^ 32`.
* `regs[R_MAX]` is kept as the bytes it occupies in memory (byte offset to byte
  value), because `eth_rx` and the transmit path use it through `memcpy` and
  byte pointers.  A word access `regs[w]` combines or splits the four bytes at
  offset `4 * w` in host byte order.
* The outside world (interrupt line, network queue) is a list of output
  events produced by a step.
-/

namespace XilinxEthlite

/-! ## Register map (`#define`s of the source) -/

def R_TX_BUF0 : Nat := 0
def BUFSZ_MAX : Nat := 0x07e4
def A_MDIO_BASE : Nat := 0x07e4
def R_TX_LEN0 : Nat := 0x07f4 / 4
def R_TX_GIE0 : Nat := 0x07f8 / 4
def R_TX_CTRL0 : Nat := 0x07fc / 4
def R_TX_BUF1 : Nat := 0x0800 / 4
def R_TX_LEN1 : Nat := 0x0ff4 / 4
def R_TX_CTRL1 : Nat := 0x0ffc / 4

def R_RX_BUF0 : Nat := 0x1000 / 4
def R_RX_CTRL0 : Nat := 0x17fc / 4
def R_RX_BUF1 : Nat := 0x1800 / 4
def R_RX_CTRL1 : Nat := 0x1ffc / 4
def GIE_GIE : Nat := 0x80000000

def CTRL_I : Nat := 0x8
def CTRL_P : Nat := 0x2
def CTRL_S : Nat := 0x1

/-! ## Byte order -/

/-- Compile-time byte orders of the build: the host the emulator runs on and
the emulated target. -/
structure Build where
  host_big_endian : Bool
  target_big_endian : Bool
  deriving DecidableEq, Repr

/-- Reversal of the four bytes of a 32-bit word. -/
def bswap32 (v : Nat) : Nat :=
  (v % 256) * 2 ^ 24 + (v / 2 ^ 8 % 256) * 2 ^ 16 + (v / 2 ^ 16 % 256) * 2 ^ 8
    + (v / 2 ^ 24 % 256)

/-- Modelled from the spec: `tswap32` of `exec/tswap.h` is not among the
sources.  It is the explicit byte-order conversion between target and host
order: the identity when both orders agree and a byte swap otherwise. -/
def tswap32 (b : Build) (v : Nat) : Nat :=
  if b.host_big_endian != b.target_big_endian then bswap32 v else v

/-- Modelled from the spec: `extract64` of `qemu/bitops.h` is not among the
sources.  It is the bit field of `length` bits of a 64-bit `value` starting at
bit `start`. -/
def extract64 (value start length : Nat) : Nat :=
  (value >>> start) &&& ((2 ^ 64 - 1) >>> (64 - length))

/-! ## Device state -/

structure XlnxXpsEthLitePort where
  tx_gie : Nat
  rx_ctrl : Nat
  deriving DecidableEq, Repr

/-- The fields of `struct XlnxXpsEthLite` that the register block and the
receive path use.  `macaddr i` is `conf.macaddr.a[i]`; `regs` holds the bytes
of the `regs` array.  `port` and `regs` are total maps, while the C arrays
have 2 entries and `4 * R_MAX` bytes.  The maps describe the code as long as
every access stays inside the arrays: `port_index` 0 or 1, which holds from
reset when `c_rx_pingpong` is 0 or 1, and received frames shorter than
`BUFSZ_MAX`.  An index past `port[2]` is outside the embedding: in the
structure `port` is directly followed by `regs`. -/
structure XlnxXpsEthLite where
  macaddr : Nat → Nat
  c_tx_pingpong : Nat
  c_rx_pingpong : Nat
  port_index : Nat
  port : Nat → XlnxXpsEthLitePort
  regs : Nat → Nat

/-- What a step hands to the rest of the machine.  `send_packet buf size` is
the call `qemu_send_packet(queue, buf, size)`: the pointer `buf` is given as
its byte offset in `regs`, `size` is the `int` the callee receives. -/
inductive Event where
  | irq_pulse
  | send_packet (buf : Nat) (size : Int)
  | flush_queued_packets
  deriving DecidableEq, Repr

/-- The value a `uint32_t` has when it is passed as an `int` argument. -/
def int_of_uint32 (v : Nat) : Int :=
  if v < 2 ^ 31 then (v : Int) else (v : Int) - 2 ^ 32

/-- Byte `k` (0 to 3, in memory order) of the 32-bit word `v` on the host. -/
def word_byte (b : Build) (v k : Nat) : Nat :=
  if b.host_big_endian then v / 2 ^ (8 * (3 - k)) % 256 else v / 2 ^ (8 * k) % 256

/-- The load `regs[w]`. -/
def regs_word (b : Build) (mem : Nat → Nat) (w : Nat) : Nat :=
  if b.host_big_endian then
    mem (4 * w) * 2 ^ 24 + mem (4 * w + 1) * 2 ^ 16 + mem (4 * w + 2) * 2 ^ 8 + mem (4 * w + 3)
  else
    mem (4 * w) + mem (4 * w + 1) * 2 ^ 8 + mem (4 * w + 2) * 2 ^ 16 + mem (4 * w + 3) * 2 ^ 24

/-- The store `regs[w] = v`. -/
def regs_store (b : Build) (mem : Nat → Nat) (w v : Nat) : Nat → Nat :=
  fun i => if i / 4 = w then word_byte b v (i % 4) else mem i

/-- The `n` bytes of memory from byte offset `off` on. -/
def mem_bytes (mem : Nat → Nat) (off n : Nat) : List Nat :=
  (List.range n).map (fun i => mem (off + i))

/-- The effect of `memcpy(dst, buf, size)` with `dst` at byte offset `off`. -/
def memcpy_to (mem : Nat → Nat) (off : Nat) (buf : List Nat) : Nat → Nat :=
  fun i => if off ≤ i ∧ i < off + buf.length then buf.getD (i - off) 0 else mem i

/-- The six bytes of `conf.macaddr`. -/
def mac_bytes (s : XlnxXpsEthLite) : List Nat :=
  (List.range 6).map s.macaddr

/-! ## Operations -/

def eth_pulse_irq (s : XlnxXpsEthLite) : List Event :=
  if (s.port 0).tx_gie &&& GIE_GIE ≠ 0 then [Event.irq_pulse] else []

def addr_to_port_index (addr : Nat) : Nat :=
  extract64 addr 11 1

/-- Byte offset in `regs` of the pointer returned by `txbuf_ptr`. -/
def txbuf_ptr (port_index : Nat) : Nat :=
  let rxbase := port_index * (0x800 / 4) % 2 ^ 32
  4 * ((rxbase + R_TX_BUF0) % 2 ^ 32)

/-- Byte offset in `regs` of the pointer returned by `rxbuf_ptr`. -/
def rxbuf_ptr (port_index : Nat) : Nat :=
  let rxbase := port_index * (0x800 / 4) % 2 ^ 32
  4 * ((rxbase + R_RX_BUF0) % 2 ^ 32)

def eth_read (b : Build) (s : XlnxXpsEthLite) (addr : Nat) : Nat :=
  let port_index := addr_to_port_index addr
  let addr := addr >>> 2
  if addr = R_TX_GIE0 then
    (s.port port_index).tx_gie
  else if addr = R_TX_LEN0 ∨ addr = R_TX_LEN1 ∨ addr = R_TX_CTRL1 ∨ addr = R_TX_CTRL0 then
    regs_word b s.regs addr
  else if addr = R_RX_CTRL1 ∨ addr = R_RX_CTRL0 then
    (s.port port_index).rx_ctrl
  else
    tswap32 b (regs_word b s.regs addr)

def eth_write (b : Build) (s : XlnxXpsEthLite) (addr val64 : Nat) :
    XlnxXpsEthLite × List Event :=
  let port_index := addr_to_port_index addr
  let value := val64 % 2 ^ 32
  let addr := addr >>> 2
  if addr = R_TX_CTRL0 ∨ addr = R_TX_CTRL1 then
    let base := if addr = R_TX_CTRL1 then 0x800 / 4 else 0
    let irq := if regs_word b s.regs (base + R_TX_CTRL0) &&& CTRL_I ≠ 0
               then eth_pulse_irq s else []
    let stored := regs_store b s.regs addr (value &&& 0xFFFFFFFC)
    if value &&& (CTRL_P ||| CTRL_S) = CTRL_S then
      ({ s with regs := stored },
        Event.send_packet (txbuf_ptr port_index)
          (int_of_uint32 (regs_word b s.regs (base + R_TX_LEN0)))
          :: irq)
    else if value &&& (CTRL_P ||| CTRL_S) = (CTRL_P ||| CTRL_S) then
      let mac := mem_bytes s.regs (txbuf_ptr port_index) 6
      ({ s with macaddr := fun i => if i < 6 then mac.getD i 0 else s.macaddr i,
                regs := stored }, irq)
    else
      ({ s with regs := stored }, [])
  else if addr = R_RX_CTRL0 ∨ addr = R_RX_CTRL1 then
    let flush := if value &&& CTRL_S = 0 then [Event.flush_queued_packets] else []
    ({ s with port := Function.update s.port port_index
                { s.port port_index with rx_ctrl := value } }, flush)
  else if addr = R_TX_LEN0 ∨ addr = R_TX_LEN1 then
    ({ s with regs := regs_store b s.regs addr value }, [])
  else if addr = R_TX_GIE0 then
    ({ s with port := Function.update s.port port_index
                { s.port port_index with tx_gie := value } }, [])
  else
    ({ s with regs := regs_store b s.regs addr (tswap32 b value) }, [])

/-- Whether word offset `w` falls in the `default` case of the `switch` of
`eth_read` and of `eth_write` (both name the same seven registers). -/
def is_default_word (w : Nat) : Bool :=
  w ∉ [R_TX_GIE0, R_TX_LEN0, R_TX_LEN1, R_TX_CTRL0, R_TX_CTRL1, R_RX_CTRL0, R_RX_CTRL1]

def eth_can_rx (s : XlnxXpsEthLite) : Bool :=
  (s.port s.port_index).rx_ctrl &&& CTRL_S = 0

/-- The result of `eth_rx`: the device afterwards, the returned `ssize_t` and
the interrupt pulses raised. -/
structure RxResult where
  state : XlnxXpsEthLite
  ret : Int
  events : List Event

/-- The frame `buf` has `size = buf.length` bytes.  The destination filter
reads `buf[0]` and the first six bytes whatever `size` is; the embedding
describes it for frames of at least six bytes. -/
def eth_rx (s : XlnxXpsEthLite) (buf : List Nat) : RxResult :=
  let size := buf.length
  let port_index := s.port_index
  if buf.getD 0 0 &&& 0x80 = 0 ∧ mac_bytes s ≠ buf.take 6 then
    ⟨s, size, []⟩
  else if (s.port port_index).rx_ctrl &&& CTRL_S ≠ 0 then
    ⟨s, -1, []⟩
  else if size ≥ BUFSZ_MAX then
    ⟨s, -1, []⟩
  else
    let rx_ctrl := (s.port port_index).rx_ctrl ||| CTRL_S
    let s1 : XlnxXpsEthLite :=
      { s with regs := memcpy_to s.regs (rxbuf_ptr port_index) buf,
               port := Function.update s.port port_index
                 { s.port port_index with rx_ctrl := rx_ctrl } }
    let irq := if rx_ctrl &&& CTRL_I ≠ 0 then eth_pulse_irq s1 else []
    ⟨{ s1 with port_index := s.port_index ^^^ s.c_rx_pingpong }, size, irq⟩

/-- The path condition under which `eth_rx` reaches its `memcpy`: the frame
passes the destination filter, the current receive buffer is free and the
frame fits. -/
def rx_accepts (s : XlnxXpsEthLite) (buf : List Nat) : Bool :=
  !(decide (buf.getD 0 0 &&& 0x80 = 0 ∧ mac_bytes s ≠ buf.take 6))
    && decide ((s.port s.port_index).rx_ctrl &&& CTRL_S = 0)
    && decide (buf.length < BUFSZ_MAX)

def xilinx_ethlite_reset (s : XlnxXpsEthLite) : XlnxXpsEthLite :=
  { s with port_index := 0 }


/-- One interaction with the device: a guest register access, a frame from the
network, or a device reset. -/
inductive Access where
  | write (addr val64 : Nat)
  | read (addr : Nat)
  | rx (buf : List Nat)
  | reset

/-- The device after one interaction. -/
def step (b : Build) (s : XlnxXpsEthLite) : Access → XlnxXpsEthLite
  | .write addr val64 => (eth_write b s addr val64).1
  | .read _ => s
  | .rx buf => (eth_rx s buf).state
  | .reset => xilinx_ethlite_reset s

/-- The outputs of one interaction. -/
def step_events (b : Build) (s : XlnxXpsEthLite) : Access → List Event
  | .write addr val64 => (eth_write b s addr val64).2
  | .read _ => []
  | .rx buf => (eth_rx s buf).events
  | .reset => []

/-- The device after a sequence of interactions. -/
def run (b : Build) (s : XlnxXpsEthLite) (t : List Access) : XlnxXpsEthLite :=
  t.foldl (step b) s

/-- The device as instantiated: the object is allocated zeroed, the two
ping-pong properties and the MAC address are configuration. -/
def ethlite_init (mac : Nat → Nat) (c_tx_pingpong c_rx_pingpong : Nat) : XlnxXpsEthLite :=
  { macaddr := mac, c_tx_pingpong := c_tx_pingpong, c_rx_pingpong := c_rx_pingpong,
    port_index := 0, port := fun _ => ⟨0, 0⟩, regs := fun _ => 0 }

/-- The byte offsets in `regs` to which the frames of a sequence of
interactions are copied: one entry for each frame that `eth_rx` accepts, in
order of arrival. -/
def rx_stores (b : Build) (s : XlnxXpsEthLite) : List Access → List Nat
  | [] => []
  | .rx buf :: t =>
    (if rx_accepts s buf then [rxbuf_ptr s.port_index] else [])
      ++ rx_stores b (step b s (.rx buf)) t
  | a :: t => rx_stores b (step b s a) t

/-- Whether an interaction is a device reset. -/
def Access.is_reset : Access → Bool
  | .reset => true
  | _ => false

/-- The device `s` with `port[1].reg.tx_gie` replaced by `g`. -/
def with_port1_tx_gie (s : XlnxXpsEthLite) (g : Nat) : XlnxXpsEthLite :=
  { s with port := Function.update s.port 1 { s.port 1 with tx_gie := g } }

/-- A little-endian host emulating a big-endian target: `tswap32` swaps. -/
def example_build : Build := ⟨false, true⟩

/-- A device with interrupts enabled on both receive buffers and globally. -/
def example_device : XlnxXpsEthLite :=
  { macaddr := fun i => 0x10 + i, c_tx_pingpong := 1, c_rx_pingpong := 1, port_index := 0,
    port := fun _ => ⟨GIE_GIE, CTRL_I⟩, regs := fun _ => 0 }

/-- The same device without receive ping-pong. -/
def example_device_single : XlnxXpsEthLite :=
  { example_device with c_rx_pingpong := 0 }

/-- A broadcast frame of eight bytes. -/
def example_frame : List Nat := [0xff, 0xff, 0xff, 0xff, 0xff, 0xff, 1, 2]

/-- A unicast frame for another station. -/
def example_frame_other : List Nat := [0x02, 0, 0, 0, 0, 1, 1, 2]

/-- Three broadcast frames, the guest freeing the receive buffers in between. -/
def example_trace : List Access :=
  [.rx example_frame, .write 0x17fc 0, .rx example_frame, .write 0x1ffc 0, .rx example_frame]

end XilinxEthlite

namespace Plugin

/-! ## Registry state (`plugins/plugin.h`)

The header declares the registry state and the registry operations; the
bodies of the operations are not part of the sources and are modelled from
the specification. -/

abbrev qemu_plugin_id_t := Nat

/-- An entry of an event's callback list: the owning context, the function
reference and the optional opaque user data. -/
structure qemu_plugin_cb where
  ctx : qemu_plugin_id_t
  func : Nat
  udata : Option Nat
  deriving DecidableEq, Repr

/-- The fields of `struct qemu_plugin_ctx` the registry operations use:
`callbacks ev` is the slot `callbacks[ev]`. -/
structure qemu_plugin_ctx where
  id : qemu_plugin_id_t
  callbacks : Nat → Option qemu_plugin_cb
  installing : Bool
  uninstalling : Bool
  resetting : Bool

/-- A scoreboard: the array of per-vcpu elements a plugin created, one slot
for each vcpu.  `handle` stands for the address the plugin holds; the value of
an element is kept as a number, its size in bytes is `element_size`. -/
structure qemu_plugin_scoreboard where
  handle : Nat
  element_size : Nat
  data : List Nat
  deriving DecidableEq, Repr

/-- The fields of `struct qemu_plugin_state` the registry operations use.
`id_ht` is the set of ids in the id index, `mask` the event bitmap as a
number, `next_id` the allocator of the monotonically assigned ids,
`scoreboard_alloc_size` the number of elements the registered scoreboards
were last grown to, `next_scoreboard` the allocator of scoreboard handles. -/
structure qemu_plugin_state where
  ctxs : List qemu_plugin_ctx
  cb_lists : Nat → List qemu_plugin_cb
  id_ht : List qemu_plugin_id_t
  mask : Nat
  next_id : qemu_plugin_id_t
  scoreboards : List qemu_plugin_scoreboard := []
  scoreboard_alloc_size : Nat := 0
  num_vcpus : Nat := 0
  next_scoreboard : Nat := 0

/-- What a registry operation reports to its caller or hands on. -/
inductive Output where
  | installed (id : qemu_plugin_id_t)
  | load_failure
  | uninstall_done (id : qemu_plugin_id_t)
  | not_found (id : qemu_plugin_id_t)
  deriving DecidableEq, Repr

/-- One call made by firing an event. -/
structure Invocation where
  func : Nat
  udata : Option Nat
  args : Nat
  deriving DecidableEq, Repr

/-- Modelled from the spec: `set_bit` of `qemu/bitops.h` is not among the
sources; it sets the active bit of an event kind in the bitmask. -/
def set_bit (nr mask : Nat) : Nat :=
  mask ||| (1 <<< nr)

/-- Modelled from the spec: `clear_bit` of `qemu/bitops.h` is not among the
sources; it clears the active bit of an event kind in the bitmask. -/
def clear_bit (nr mask : Nat) : Nat :=
  mask ^^^ (mask &&& (1 <<< nr))

/-- Modelled from the spec: `test_bit` of `qemu/bitops.h` is not among the
sources; it reads the active bit of an event kind. -/
def test_bit (nr mask : Nat) : Bool :=
  mask.testBit nr

/-- The registry before any plugin is installed. -/
def plugin_init : qemu_plugin_state :=
  { ctxs := [], cb_lists := fun _ => [], id_ht := [], mask := 0, next_id := 0 }

/-- Modelled from the spec: the body of `plugin_id_to_ctx_locked` is not among
the sources.  `lookup(id)` fails if `id` is unknown or the context has
completed removal; the context is found through the id index. -/
def plugin_id_to_ctx_locked (s : qemu_plugin_state) (id : qemu_plugin_id_t) :
    Option qemu_plugin_ctx :=
  if id ∈ s.id_ht then s.ctxs.find? (fun c => c.id == id) else none

/-- Modelled from the spec: the installer is not among the sources.
`install(descriptor)` allocates a fresh id, creates a context in state
Installing and inserts it into the id index; on success of loading the context
becomes Active, a load failure aborts only this install and leaves the
registry otherwise unaffected. -/
def install (s : qemu_plugin_state) (load_ok : Bool) : qemu_plugin_state × List Output :=
  let id := s.next_id
  let ctx : qemu_plugin_ctx :=
    { id := id, callbacks := fun _ => none, installing := true, uninstalling := false,
      resetting := false }
  let s1 : qemu_plugin_state :=
    { s with next_id := id + 1, ctxs := s.ctxs ++ [ctx], id_ht := id :: s.id_ht }
  if load_ok then
    let act := fun (c : qemu_plugin_ctx) =>
      if c.id = id then { c with installing := false } else c
    ({ s1 with ctxs := s1.ctxs.map act }, [Output.installed id])
  else
    ({ s1 with ctxs := s1.ctxs.filter (fun c => c.id != id),
               id_ht := s1.id_ht.erase id },
      [Output.load_failure])

/-- Modelled from the spec: the body of `plugin_register_cb_udata` is not
among the sources.  `subscribe(id, event, function, user_data)` appends a
callback entry to the event kind's list and sets the kind's active bit; the
entry also fills the context's slot for the event.  An id that lookup does not
find is reported as not found. -/
def plugin_register_cb_udata (s : qemu_plugin_state) (id : qemu_plugin_id_t) (ev func : Nat)
    (udata : Option Nat) : qemu_plugin_state × List Output :=
  match plugin_id_to_ctx_locked s id with
  | none => (s, [Output.not_found id])
  | some _ =>
    let cb : qemu_plugin_cb := { ctx := id, func := func, udata := udata }
    let fill := fun (c : qemu_plugin_ctx) =>
      if c.id = id then { c with callbacks := Function.update c.callbacks ev (some cb) } else c
    ({ s with cb_lists := Function.update s.cb_lists ev (s.cb_lists ev ++ [cb]),
              mask := set_bit ev s.mask,
              ctxs := s.ctxs.map fill }, [])

/-- Modelled from the spec: the body of `plugin_register_cb` is not among the
sources; it is `subscribe` without user data. -/
def plugin_register_cb (s : qemu_plugin_state) (id : qemu_plugin_id_t) (ev func : Nat) :
    qemu_plugin_state × List Output :=
  plugin_register_cb_udata s id ev func none

/-- Modelled from the spec: the body of `plugin_unregister_cb__locked` is not
among the sources.  `unsubscribe(context, event)` removes all entries of that
context and event pair and is a no-op if there is none; the active bit of the
kind stays set exactly while its list is non-empty. -/
def plugin_unregister_cb__locked (s : qemu_plugin_state) (ctx : qemu_plugin_id_t) (ev : Nat) :
    qemu_plugin_state :=
  let rest := (s.cb_lists ev).filter (fun cb => cb.ctx != ctx)
  let empty := fun (c : qemu_plugin_ctx) =>
    if c.id = ctx then { c with callbacks := Function.update c.callbacks ev none } else c
  { s with cb_lists := Function.update s.cb_lists ev rest,
           mask := if rest.isEmpty then clear_bit ev s.mask else s.mask,
           ctxs := s.ctxs.map empty }

/-- Drop the callbacks of context `ctx` for every event kind below `evmax`. -/
def plugin_unregister_all (evmax : Nat) (s : qemu_plugin_state) (ctx : qemu_plugin_id_t) :
    qemu_plugin_state :=
  (List.range evmax).foldl (fun t ev => plugin_unregister_cb__locked t ctx ev) s

/-- Modelled from the spec: the removal of a context is not among the sources.
With `reset` false all entries referencing the context are dropped, the
context is removed from the id index and the done callback fires; with `reset`
true only the callbacks are cleared and the context leaves Resetting under the
same id (an uninstall recorded for it stays recorded).  `evmax` is
`QEMU_PLUGIN_EV_MAX`, whose declaration is not among the sources. -/
def plugin_reset_destroy (evmax : Nat) (s : qemu_plugin_state) (id : qemu_plugin_id_t)
    (reset : Bool) : qemu_plugin_state × List Output :=
  let s1 := plugin_unregister_all evmax s id
  if reset then
    let act := fun (c : qemu_plugin_ctx) =>
      if c.id = id then { c with resetting := false } else c
    ({ s1 with ctxs := s1.ctxs.map act }, [])
  else
    ({ s1 with ctxs := s1.ctxs.filter (fun c => c.id != id),
               id_ht := s1.id_ht.erase id },
      [Output.uninstall_done id])

/-- Modelled from the spec: the body of `plugin_reset_uninstall` is not among
the sources.  An unknown id is reported as not found.  If the context is
executing one of its own callbacks on the calling thread (`in_callback`) the
operation is recorded in the context and deferred until the callback returns;
otherwise it is carried out at once. -/
def plugin_reset_uninstall (evmax : Nat) (s : qemu_plugin_state) (id : qemu_plugin_id_t)
    (reset in_callback : Bool) : qemu_plugin_state × List Output :=
  match plugin_id_to_ctx_locked s id with
  | none => (s, [Output.not_found id])
  | some _ =>
    if in_callback then
      let record := fun (c : qemu_plugin_ctx) =>
        if c.id = id then
          (if reset then { c with resetting := true } else { c with uninstalling := true })
        else c
      ({ s with ctxs := s.ctxs.map record }, [])
    else plugin_reset_destroy evmax s id reset

/-- Modelled from the spec: the return of a plugin callback is the point at
which an uninstall or reset recorded for its context is carried out. -/
def callback_return (evmax : Nat) (s : qemu_plugin_state) (id : qemu_plugin_id_t) :
    qemu_plugin_state × List Output :=
  match plugin_id_to_ctx_locked s id with
  | none => (s, [])
  | some c =>
    if c.uninstalling then plugin_reset_destroy evmax s id false
    else if c.resetting then plugin_reset_destroy evmax s id true
    else (s, [])

/-- Modelled from the spec: the dispatch functions are not among the sources.
`fire(event, args)` returns at once if the active bit of the event is unset;
otherwise it walks the list in registration order and invokes each entry with
its stored user data. -/
def fire (s : qemu_plugin_state) (ev args : Nat) : List Invocation :=
  if test_bit ev s.mask then
    (s.cb_lists ev).map (fun cb => { func := cb.func, udata := cb.udata, args := args })
  else []

/-- A registry operation. -/
inductive Op where
  | install (load_ok : Bool)
  | reset_uninstall (id : qemu_plugin_id_t) (reset in_callback : Bool)
  | callback_return (id : qemu_plugin_id_t)
  | register_cb (id : qemu_plugin_id_t) (ev func : Nat)
  | register_cb_udata (id : qemu_plugin_id_t) (ev func : Nat) (udata : Option Nat)
  | unregister_cb (ctx : qemu_plugin_id_t) (ev : Nat)
  deriving DecidableEq, Repr

/-- The registry after one operation, with what the operation reported. -/
def apply_op (evmax : Nat) (s : qemu_plugin_state) : Op → qemu_plugin_state × List Output
  | .install load_ok => install s load_ok
  | .reset_uninstall id reset in_callback => plugin_reset_uninstall evmax s id reset in_callback
  | .callback_return id => callback_return evmax s id
  | .register_cb id ev func => plugin_register_cb s id ev func
  | .register_cb_udata id ev func udata => plugin_register_cb_udata s id ev func udata
  | .unregister_cb ctx ev => (plugin_unregister_cb__locked s ctx ev, [])

/-- The registry after a sequence of operations, with everything reported. -/
def run_ops (evmax : Nat) (s : qemu_plugin_state) :
    List Op → qemu_plugin_state × List Output
  | [] => (s, [])
  | op :: ops =>
    let r := apply_op evmax s op
    let r2 := run_ops evmax r.1 ops
    (r2.1, r.2 ++ r2.2)

/-- The ids a log reports as installed. -/
def installed_ids (log : List Output) : List qemu_plugin_id_t :=
  log.filterMap (fun o => match o with | .installed id => some id | _ => none)

/-- The ids a log reports as fully uninstalled. -/
def uninstalled_ids (log : List Output) : List qemu_plugin_id_t :=
  log.filterMap (fun o => match o with | .uninstall_done id => some id | _ => none)

/-- A subscription request: context id, function and optional user data. -/
structure Subscription where
  id : qemu_plugin_id_t
  func : Nat
  udata : Option Nat
  deriving DecidableEq, Repr

/-- Subscribe to event `ev` in the given order: `plugin_register_cb` for a
request without user data, `plugin_register_cb_udata` otherwise. -/
def subscribe_all (s : qemu_plugin_state) (ev : Nat) : List Subscription → qemu_plugin_state
  | [] => s
  | sub :: subs =>
    let s1 := match sub.udata with
      | none => (plugin_register_cb s sub.id ev sub.func).1
      | some u => (plugin_register_cb_udata s sub.id ev sub.func (some u)).1
    subscribe_all s1 ev subs

/-- The invariant of the id space: the id index and the context list hold the
same ids, each once, all allocated before `next_id`, and the index holds
exactly the ids the log reports installed and not yet fully uninstalled. -/
def IdInv (s : qemu_plugin_state) (log : List Output) : Prop :=
  s.id_ht.Nodup ∧ (s.ctxs.map (fun c => c.id)).Nodup ∧
  (∀ id, id ∈ s.id_ht ↔ id ∈ s.ctxs.map (fun c => c.id)) ∧
  (∀ id ∈ s.id_ht, id < s.next_id) ∧
  (∀ id ∈ installed_ids log, id < s.next_id) ∧
  (∀ id ∈ uninstalled_ids log, id < s.next_id) ∧
  (∀ id, id ∈ s.id_ht ↔ id ∈ installed_ids log ∧ id ∉ uninstalled_ids log)

/-- The registry once a reset of context `id` requested in state `s` has been
carried out: at once when requested from outside the context's callbacks, at
the return of the running callback when requested from inside one. -/
def reset_completed (evmax : Nat) (s : qemu_plugin_state) (id : qemu_plugin_id_t)
    (in_callback : Bool) : qemu_plugin_state :=
  if in_callback then
    (callback_return evmax (plugin_reset_uninstall evmax s id true true).1 id).1
  else
    (plugin_reset_uninstall evmax s id true false).1

/-! ## Scoreboards -/

/-- Modelled from the spec: the body of `plugin_num_vcpus` is not among the
sources; it reports how many vcpus were started. -/
def plugin_num_vcpus (s : qemu_plugin_state) : Nat :=
  s.num_vcpus

/-- Modelled from the spec: the body of `plugin_scoreboard_new` is not among
the sources.  `create(element_size)` allocates an array sized to the
registry's currently known vcpu count, zero-initialised, and registers it so
that the registry can grow it when new vcpus start. -/
def plugin_scoreboard_new (s : qemu_plugin_state) (element_size : Nat) :
    qemu_plugin_state × qemu_plugin_scoreboard :=
  let score : qemu_plugin_scoreboard :=
    { handle := s.next_scoreboard, element_size := element_size,
      data := List.replicate s.num_vcpus 0 }
  ({ s with scoreboards := score :: s.scoreboards, next_scoreboard := s.next_scoreboard + 1 },
    score)

/-- Modelled from the spec: the body of `plugin_scoreboard_free` is not among
the sources.  `destroy(handle)` deregisters and releases the scoreboard. -/
def plugin_scoreboard_free (s : qemu_plugin_state) (handle : Nat) : qemu_plugin_state :=
  { s with scoreboards := s.scoreboards.filter (fun score => score.handle != handle) }

/-- A scoreboard grown to hold at least `n` elements, the new ones zero; it
never shrinks. -/
def scoreboard_grow (n : Nat) (score : qemu_plugin_scoreboard) : qemu_plugin_scoreboard :=
  { score with data := score.data ++ List.replicate (n - score.data.length) 0 }

/-- Modelled from the spec: the vcpu start notification is not among the
sources.  On vcpu start the count of started vcpus goes up by one and the
registry grows every registered scoreboard to it. -/
def plugin_vcpu_start (s : qemu_plugin_state) : qemu_plugin_state :=
  let n := s.num_vcpus + 1
  { s with num_vcpus := n, scoreboard_alloc_size := n,
           scoreboards := s.scoreboards.map (scoreboard_grow n) }

/-- Modelled from the spec: the slot accessor is not among the sources.
`slot_for(handle, vcpu_index)` is the sole access primitive; this is a store
of `value` through it.  Nothing is stored if the handle is not registered or
the index is beyond the scoreboard's capacity. -/
def scoreboard_write (s : qemu_plugin_state) (handle vcpu_index value : Nat) :
    qemu_plugin_state :=
  let store := fun (score : qemu_plugin_scoreboard) =>
    if score.handle = handle then { score with data := score.data.set vcpu_index value }
    else score
  { s with scoreboards := s.scoreboards.map store }

/-- Modelled from the spec: the slot accessor is not among the sources.  A
load through `slot_for(handle, vcpu_index)`; there is no value if the handle
is not registered or the index is beyond the scoreboard's capacity. -/
def scoreboard_read (s : qemu_plugin_state) (handle vcpu_index : Nat) : Option Nat :=
  match s.scoreboards.find? (fun score => score.handle == handle) with
  | none => none
  | some score => score.data[vcpu_index]?

/-- Every vcpu of the list in turn stores its own index in its own slot of the
scoreboard `handle`. -/
def write_own_index (s : qemu_plugin_state) (handle : Nat) (order : List Nat) :
    qemu_plugin_state :=
  order.foldl (fun t i => scoreboard_write t handle i i) s

/-- A registry operation or a scoreboard operation. -/
inductive RegistryOp where
  | registry (op : Op)
  | vcpu_start
  | scoreboard_new (element_size : Nat)
  | scoreboard_free (handle : Nat)
  | slot_write (handle vcpu_index value : Nat)
  deriving DecidableEq, Repr

/-- The registry after one operation. -/
def apply_registry_op (evmax : Nat) (s : qemu_plugin_state) : RegistryOp → qemu_plugin_state
  | .registry op => (apply_op evmax s op).1
  | .vcpu_start => plugin_vcpu_start s
  | .scoreboard_new element_size => (plugin_scoreboard_new s element_size).1
  | .scoreboard_free handle => plugin_scoreboard_free s handle
  | .slot_write handle vcpu_index value => scoreboard_write s handle vcpu_index value

/-- The registry after a sequence of operations. -/
def run_registry_ops (evmax : Nat) (s : qemu_plugin_state) (ops : List RegistryOp) :
    qemu_plugin_state :=
  ops.foldl (apply_registry_op evmax) s

/-- The number of vcpu starts in a sequence of operations. -/
def vcpus_started (ops : List RegistryOp) : Nat :=
  ops.countP (fun op => match op with
    | .vcpu_start => true
    | _ => false)

/-! ## Concrete inputs used to instantiate the theorems -/

/-- A registry with two installed plugins, ids 0 and 1. -/
def example_registry : qemu_plugin_state :=
  (run_ops 6 plugin_init [.install true, .install true]).1

/-- Three subscriptions, the plugins interleaved. -/
def example_subscriptions : List Subscription :=
  [⟨1, 100, none⟩, ⟨0, 200, some 7⟩, ⟨1, 300, some 8⟩]

/-- The example registry after plugin 1 subscribed to event 2 and then
requested its own uninstall from inside one of its callbacks: the uninstall is
recorded and pending. -/
def example_registry_uninstalling : qemu_plugin_state :=
  (run_ops 6 example_registry [.register_cb 1 2 100, .reset_uninstall 1 false true]).1

/-- The example registry after plugin 1 subscribed to events 2 and 3. -/
def example_registry_subscribed : qemu_plugin_state :=
  (run_ops 6 example_registry [.register_cb 1 2 100, .register_cb_udata 1 3 300 (some 8)]).1

/-- A scoreboard created after one vcpu start, one plugin installed, and two
more vcpu starts afterwards. -/
def example_scoreboard_ops : List RegistryOp :=
  [.vcpu_start, .registry (.install true), .scoreboard_new 8, .vcpu_start, .vcpu_start]

end Plugin

/-! # Theorems: Ethernet Lite -/

namespace XilinxEthlite

theorem bswap32_lt (v : Nat) : bswap32 v < 2 ^ 32 := by
  unfold bswap32; norm_num; omega

theorem bswap32_of_bytes (a c d e : Nat) (ha : a < 256) (hc : c < 256) (hd : d < 256)
    (he : e < 256) :
    bswap32 (a + 256 * c + 65536 * d + 16777216 * e) = e + 256 * d + 65536 * c + 16777216 * a := by
  have h0 : (a + 256 * c + 65536 * d + 16777216 * e) % 256 = a := by omega
  have h1 : (a + 256 * c + 65536 * d + 16777216 * e) / 256 % 256 = c := by omega
  have h2 : (a + 256 * c + 65536 * d + 16777216 * e) / 65536 % 256 = d := by omega
  have h3 : (a + 256 * c + 65536 * d + 16777216 * e) / 16777216 % 256 = e := by omega
  unfold bswap32
  norm_num
  rw [h0, h1, h2, h3]
  omega

theorem word_bytes (v : Nat) (h : v < 2 ^ 32) :
    ∃ a c d e, a < 256 ∧ c < 256 ∧ d < 256 ∧ e < 256 ∧
      v = a + 256 * c + 65536 * d + 16777216 * e :=
  ⟨v % 256, v / 256 % 256, v / 256 / 256 % 256, v / 256 / 256 / 256,
    by omega, by omega, by omega, by omega, by omega⟩

theorem bswap32_bswap32 (v : Nat) (h : v < 2 ^ 32) : bswap32 (bswap32 v) = v := by
  obtain ⟨a, c, d, e, ha, hc, hd, he, rfl⟩ := word_bytes v h
  rw [bswap32_of_bytes a c d e ha hc hd he, bswap32_of_bytes e d c a he hd hc ha]

theorem tswap32_lt (b : Build) (v : Nat) (h : v < 2 ^ 32) : tswap32 b v < 2 ^ 32 := by
  unfold tswap32; split
  · exact bswap32_lt v
  · exact h

theorem tswap32_tswap32 (b : Build) (v : Nat) (h : v < 2 ^ 32) :
    tswap32 b (tswap32 b v) = v := by
  unfold tswap32; split
  · exact bswap32_bswap32 v h
  · rfl

theorem regs_word_store_same (b : Build) (mem : Nat → Nat) (w v : Nat) (h : v < 2 ^ 32) :
    regs_word b (regs_store b mem w v) w = v := by
  have e0 : (4 * w) / 4 = w := by omega
  have e1 : (4 * w + 1) / 4 = w := by omega
  have e2 : (4 * w + 2) / 4 = w := by omega
  have e3 : (4 * w + 3) / 4 = w := by omega
  have m0 : (4 * w) % 4 = 0 := by omega
  have m1 : (4 * w + 1) % 4 = 1 := by omega
  have m2 : (4 * w + 2) % 4 = 2 := by omega
  have m3 : (4 * w + 3) % 4 = 3 := by omega
  unfold regs_word regs_store word_byte
  simp only [e0, e1, e2, e3, m0, m1, m2, m3, if_true]
  split
  · norm_num; omega
  · norm_num; omega

theorem regs_word_store_other (b : Build) (mem : Nat → Nat) (w w2 v : Nat) (h : w2 ≠ w) :
    regs_word b (regs_store b mem w v) w2 = regs_word b mem w2 := by
  have e0 : ¬ (4 * w2) / 4 = w := by omega
  have e1 : ¬ (4 * w2 + 1) / 4 = w := by omega
  have e2 : ¬ (4 * w2 + 2) / 4 = w := by omega
  have e3 : ¬ (4 * w2 + 3) / 4 = w := by omega
  unfold regs_word regs_store
  simp only [e0, e1, e2, e3, if_false]


theorem and_mask (v : Nat) (h : v < 2 ^ 32) : v &&& 0xFFFFFFFC = v - v % 4 := by
  have h1 : (0xFFFFFFFC : Nat) = (2 ^ 30 - 1) <<< 2 := by decide
  have h2 : v &&& ((2 ^ 30 - 1) <<< 2) = ((v >>> 2) &&& (2 ^ 30 - 1)) <<< 2 := by
    apply Nat.eq_of_testBit_eq
    intro i
    simp only [Nat.testBit_and, Nat.testBit_shiftLeft, Nat.testBit_shiftRight]
    by_cases hi : 2 ≤ i
    · simp [hi]
    · simp [hi]
  rw [h1, h2, Nat.and_pow_two_sub_one_eq_mod, Nat.shiftLeft_eq, Nat.shiftRight_eq_div_pow]
  omega

theorem addr_to_port_index_eq (addr : Nat) : addr_to_port_index addr = addr / 2048 % 2 := by
  unfold addr_to_port_index extract64
  have h : ((2 ^ 64 - 1) >>> (64 - 1) : Nat) = 2 ^ 1 - 1 := by decide
  rw [h, Nat.and_pow_two_sub_one_eq_mod, Nat.shiftRight_eq_div_pow]

/-- The `regs` bytes after a register write, by case of the `switch`. -/
theorem eth_write_regs (b : Build) (s : XlnxXpsEthLite) (addr val64 : Nat) :
    (eth_write b s addr val64).1.regs =
      if addr >>> 2 = R_TX_CTRL0 ∨ addr >>> 2 = R_TX_CTRL1 then
        regs_store b s.regs (addr >>> 2) (val64 % 2 ^ 32 &&& 0xFFFFFFFC)
      else if addr >>> 2 = R_RX_CTRL0 ∨ addr >>> 2 = R_RX_CTRL1 then s.regs
      else if addr >>> 2 = R_TX_LEN0 ∨ addr >>> 2 = R_TX_LEN1 then
        regs_store b s.regs (addr >>> 2) (val64 % 2 ^ 32)
      else if addr >>> 2 = R_TX_GIE0 then s.regs
      else regs_store b s.regs (addr >>> 2) (tswap32 b (val64 % 2 ^ 32)) := by
  unfold eth_write
  simp only
  split_ifs <;> rfl

/-- The port registers after a register write, by case of the `switch`. -/
theorem eth_write_port (b : Build) (s : XlnxXpsEthLite) (addr val64 : Nat) :
    (eth_write b s addr val64).1.port =
      if addr >>> 2 = R_TX_CTRL0 ∨ addr >>> 2 = R_TX_CTRL1 then s.port
      else if addr >>> 2 = R_RX_CTRL0 ∨ addr >>> 2 = R_RX_CTRL1 then
        Function.update s.port (addr_to_port_index addr)
          { s.port (addr_to_port_index addr) with rx_ctrl := val64 % 2 ^ 32 }
      else if addr >>> 2 = R_TX_LEN0 ∨ addr >>> 2 = R_TX_LEN1 then s.port
      else if addr >>> 2 = R_TX_GIE0 then
        Function.update s.port (addr_to_port_index addr)
          { s.port (addr_to_port_index addr) with tx_gie := val64 % 2 ^ 32 }
      else s.port := by
  unfold eth_write
  simp only
  split_ifs <;> rfl

theorem eth_write_port_index (b : Build) (s : XlnxXpsEthLite) (addr val64 : Nat) :
    (eth_write b s addr val64).1.port_index = s.port_index ∧
    (eth_write b s addr val64).1.c_rx_pingpong = s.c_rx_pingpong ∧
    (eth_write b s addr val64).1.c_tx_pingpong = s.c_tx_pingpong := by
  unfold eth_write
  simp only
  split_ifs <;> exact ⟨rfl, rfl, rfl⟩

/-- C2: on either byte order of the build, for every device state, every byte
offset `a` below `0x2000` and every 32-bit value `v`, reading offset `a` after
writing `v` to it returns `v`, except at the two transmit control registers,
where it returns `v` with the two low bits (`CTRL_P`, `CTRL_S`) cleared. -/
theorem eth_read_after_write (b : Build) (s : XlnxXpsEthLite) (a v : Nat) (_ha : a < 0x2000)
    (hv : v < 2 ^ 32) :
    eth_read b (eth_write b s a v).1 a =
      if a >>> 2 = R_TX_CTRL0 ∨ a >>> 2 = R_TX_CTRL1 then v - v % 4 else v := by
  have hmod : v % 2 ^ 32 = v := Nat.mod_eq_of_lt hv
  have hmask : v &&& 0xFFFFFFFC < 2 ^ 32 := by rw [and_mask v hv]; omega
  have hsw : tswap32 b v < 2 ^ 32 := tswap32_lt b v hv
  unfold eth_read
  simp only [eth_write_regs, eth_write_port, hmod]
  generalize a >>> 2 = w
  generalize addr_to_port_index a = p
  simp only [R_TX_CTRL0, R_TX_CTRL1, R_RX_CTRL0, R_RX_CTRL1, R_TX_LEN0, R_TX_LEN1, R_TX_GIE0]
  norm_num
  split_ifs <;> first
    | omega
    | simp
    | (rw [regs_word_store_same b _ _ _ hmask]; exact and_mask v hv)
    | exact regs_word_store_same b _ _ _ hv
    | (rw [regs_word_store_same b _ _ _ hsw]; exact tswap32_tswap32 b v hv)


theorem eth_read_after_write_witness :
    eth_read example_build (eth_write example_build example_device 0x7fc 7).1 0x7fc = 4 ∧
    eth_read example_build (eth_write example_build example_device 0x17f8 7).1 0x17f8 = 7 :=
  ⟨eth_read_after_write example_build example_device 0x7fc 7 (by decide) (by decide),
   eth_read_after_write example_build example_device 0x17f8 7 (by decide) (by decide)⟩

/-- C1: a value written to an RX control register (byte offsets `0x17fc` and
`0x1ffc`) is kept as it is in `port[0].reg.rx_ctrl` resp.
`port[1].reg.rx_ctrl` and read back unconverted, whereas a word in the
`default` case, such as the adjacent offset `0x17f8`, is stored as
`tswap32` of the value and read back as `tswap32` of the stored word. -/
theorem eth_rx_ctrl_native_buffer_swapped (b : Build) (s : XlnxXpsEthLite) (v : Nat) (hv : v < 2 ^ 32) :
    ((eth_write b s 0x17fc v).1.port 0).rx_ctrl = v ∧
    ((eth_write b s 0x1ffc v).1.port 1).rx_ctrl = v ∧
    eth_read b s 0x17fc = (s.port 0).rx_ctrl ∧
    eth_read b s 0x1ffc = (s.port 1).rx_ctrl ∧
    regs_word b (eth_write b s 0x17f8 v).1.regs (0x17f8 / 4) = tswap32 b v ∧
    eth_read b s 0x17f8 = tswap32 b (regs_word b s.regs (0x17f8 / 4)) ∧
    ∀ addr, is_default_word (addr >>> 2) = true →
      regs_word b (eth_write b s addr v).1.regs (addr >>> 2) = tswap32 b v ∧
      eth_read b s addr = tswap32 b (regs_word b s.regs (addr >>> 2)) := by
  have hmod : v % 2 ^ 32 = v := Nat.mod_eq_of_lt hv
  have hsw : tswap32 b v < 2 ^ 32 := tswap32_lt b v hv
  have hdef : ∀ addr, is_default_word (addr >>> 2) = true →
      regs_word b (eth_write b s addr v).1.regs (addr >>> 2) = tswap32 b v ∧
      eth_read b s addr = tswap32 b (regs_word b s.regs (addr >>> 2)) := by
    intro addr hd
    simp only [is_default_word, decide_eq_true_eq, List.mem_cons, List.mem_singleton,
      List.not_mem_nil, or_false, not_or] at hd
    obtain ⟨h1, h2, h3, h4, h5, h6, h7⟩ := hd
    constructor
    · rw [eth_write_regs, hmod]
      simp only [h1, h2, h3, h4, h5, h6, h7, or_self, if_false]
      exact regs_word_store_same b _ _ _ hsw
    · unfold eth_read
      simp only [h1, h2, h3, h4, h5, h6, h7, or_self, if_false]
  have p0 : addr_to_port_index 0x17fc = 0 := by rw [addr_to_port_index_eq]
  have p1 : addr_to_port_index 0x1ffc = 1 := by rw [addr_to_port_index_eq]
  have w0 : (0x17fc : Nat) >>> 2 = R_RX_CTRL0 := by decide
  have w1 : (0x1ffc : Nat) >>> 2 = R_RX_CTRL1 := by decide
  have w2 : (0x17f8 : Nat) / 4 = 0x17f8 >>> 2 := by decide
  have d2 : is_default_word (0x17f8 >>> 2) = true := by decide
  refine ⟨?_, ?_, ?_, ?_, ?_, ?_, hdef⟩
  · rw [eth_write_port, w0, p0, hmod]
    simp [R_RX_CTRL0, R_TX_CTRL0, R_TX_CTRL1]
  · rw [eth_write_port, w1, p1, hmod]
    simp [R_RX_CTRL1, R_RX_CTRL0, R_TX_CTRL0, R_TX_CTRL1]
  · unfold eth_read
    rw [w0, p0]
    simp [R_RX_CTRL0, R_RX_CTRL1, R_TX_CTRL0, R_TX_CTRL1, R_TX_LEN0, R_TX_LEN1, R_TX_GIE0]
  · unfold eth_read
    rw [w1, p1]
    simp [R_RX_CTRL0, R_RX_CTRL1, R_TX_CTRL0, R_TX_CTRL1, R_TX_LEN0, R_TX_LEN1, R_TX_GIE0]
  · rw [w2]; exact (hdef 0x17f8 d2).1
  · rw [w2]; exact (hdef 0x17f8 d2).2


theorem eth_rx_ctrl_native_buffer_swapped_witness :
    ((eth_write example_build example_device 0x17fc 5).1.port 0).rx_ctrl = 5 ∧
    regs_word example_build (eth_write example_build example_device 0x17f8 5).1.regs
      (0x17f8 / 4) = 0x05000000 :=
  ⟨(eth_rx_ctrl_native_buffer_swapped example_build example_device 5 (by decide)).1,
   (eth_rx_ctrl_native_buffer_swapped example_build example_device 5
      (by decide)).2.2.2.2.1⟩

/-- The result of `eth_rx` on a frame that reaches the `memcpy`. -/
theorem eth_rx_of_accepts (s : XlnxXpsEthLite) (buf : List Nat) (h : rx_accepts s buf = true) :
    (eth_rx s buf).state =
      { s with regs := memcpy_to s.regs (rxbuf_ptr s.port_index) buf,
               port := Function.update s.port s.port_index
                 { s.port s.port_index with
                   rx_ctrl := (s.port s.port_index).rx_ctrl ||| CTRL_S },
               port_index := s.port_index ^^^ s.c_rx_pingpong } ∧
    (eth_rx s buf).ret = buf.length := by
  simp only [rx_accepts, Bool.and_eq_true, Bool.not_eq_true', decide_eq_false_iff_not,
    decide_eq_true_eq] at h
  obtain ⟨⟨h1, h2⟩, h3⟩ := h
  have h3 : ¬ buf.length ≥ BUFSZ_MAX := by omega
  have h2 : ¬ (s.port s.port_index).rx_ctrl &&& CTRL_S ≠ 0 := by simpa using h2
  unfold eth_rx
  dsimp only
  rw [if_neg h1, if_neg h2, if_neg h3]
  exact ⟨rfl, rfl⟩

/-- A frame that does not reach the `memcpy` leaves the device as it was and
raises nothing. -/
theorem eth_rx_of_not_accepts (s : XlnxXpsEthLite) (buf : List Nat)
    (h : rx_accepts s buf = false) :
    (eth_rx s buf).state = s ∧ (eth_rx s buf).events = [] := by
  by_cases h1 : buf.getD 0 0 &&& 0x80 = 0 ∧ mac_bytes s ≠ buf.take 6
  · unfold eth_rx
    dsimp only
    rw [if_pos h1]
    exact ⟨rfl, rfl⟩
  by_cases h2 : (s.port s.port_index).rx_ctrl &&& CTRL_S ≠ 0
  · unfold eth_rx
    dsimp only
    rw [if_neg h1, if_pos h2]
    exact ⟨rfl, rfl⟩
  by_cases h3 : buf.length ≥ BUFSZ_MAX
  · unfold eth_rx
    dsimp only
    rw [if_neg h1, if_neg h2, if_pos h3]
    exact ⟨rfl, rfl⟩
  · exfalso
    have h3 : buf.length < BUFSZ_MAX := by omega
    have h2 : (s.port s.port_index).rx_ctrl &&& CTRL_S = 0 := by
      by_contra hc; exact h2 hc
    unfold rx_accepts at h
    rw [decide_eq_false h1, decide_eq_true h2, decide_eq_true h3] at h
    exact absurd h (by decide)


theorem regs_word_memcpy_other (b : Build) (mem : Nat → Nat) (off : Nat) (buf : List Nat)
    (w : Nat) (h : 4 * w + 3 < off ∨ off + buf.length ≤ 4 * w) :
    regs_word b (memcpy_to mem off buf) w = regs_word b mem w := by
  have e0 : ¬ (off ≤ 4 * w ∧ 4 * w < off + buf.length) := by omega
  have e1 : ¬ (off ≤ 4 * w + 1 ∧ 4 * w + 1 < off + buf.length) := by omega
  have e2 : ¬ (off ≤ 4 * w + 2 ∧ 4 * w + 2 < off + buf.length) := by omega
  have e3 : ¬ (off ≤ 4 * w + 3 ∧ 4 * w + 3 < off + buf.length) := by omega
  unfold regs_word memcpy_to
  simp only [e0, e1, e2, e3, if_false]

theorem masked_low_bits (v : Nat) : (v &&& 0xFFFFFFFC) &&& (CTRL_P ||| CTRL_S) = 0 := by
  rw [Nat.and_assoc]
  have h : (0xFFFFFFFC : Nat) &&& (CTRL_P ||| CTRL_S) = 0 := by decide
  rw [h, Nat.and_zero]

/-- The invariant behind the transmit control registers: the stored words have
the status and program bits clear. -/
theorem tx_inv_step (b : Build) (s : XlnxXpsEthLite) (a : Access)
    (h0 : regs_word b s.regs R_TX_CTRL0 &&& (CTRL_P ||| CTRL_S) = 0)
    (h1 : regs_word b s.regs R_TX_CTRL1 &&& (CTRL_P ||| CTRL_S) = 0) :
    regs_word b (step b s a).regs R_TX_CTRL0 &&& (CTRL_P ||| CTRL_S) = 0 ∧
    regs_word b (step b s a).regs R_TX_CTRL1 &&& (CTRL_P ||| CTRL_S) = 0 := by
  cases a with
  | read addr => exact ⟨h0, h1⟩
  | reset => exact ⟨h0, h1⟩
  | write addr val64 =>
    have hm : val64 % 2 ^ 32 &&& 0xFFFFFFFC < 2 ^ 32 := by
      rw [and_mask _ (Nat.mod_lt _ (by norm_num))]; omega
    simp only [step, eth_write_regs]
    generalize addr >>> 2 = w
    by_cases c0 : w = R_TX_CTRL0
    · subst c0
      rw [if_pos (Or.inl rfl), regs_word_store_same b _ _ _ hm,
        regs_word_store_other b _ _ _ _ (by decide)]
      exact ⟨masked_low_bits _, h1⟩
    by_cases c1 : w = R_TX_CTRL1
    · subst c1
      rw [if_pos (Or.inr rfl), regs_word_store_same b _ _ _ hm,
        regs_word_store_other b _ _ _ _ (by decide)]
      exact ⟨h0, masked_low_bits _⟩
    · rw [if_neg (by tauto)]
      split_ifs <;>
        first
        | (rw [regs_word_store_other b _ _ _ _ (Ne.symm c0),
            regs_word_store_other b _ _ _ _ (Ne.symm c1)]; exact ⟨h0, h1⟩)
        | exact ⟨h0, h1⟩
  | rx buf =>
    simp only [step]
    cases hacc : rx_accepts s buf with
    | false => rw [(eth_rx_of_not_accepts s buf hacc).1]; exact ⟨h0, h1⟩
    | true =>
      have hlen : buf.length < BUFSZ_MAX := by
        simp only [rx_accepts, Bool.and_eq_true, decide_eq_true_eq] at hacc
        exact hacc.2
      rw [(eth_rx_of_accepts s buf hacc).1]
      dsimp only
      have hoff : ∀ w, w = R_TX_CTRL0 ∨ w = R_TX_CTRL1 →
          4 * w + 3 < rxbuf_ptr s.port_index ∨ rxbuf_ptr s.port_index + buf.length ≤ 4 * w := by
        intro w hw
        unfold BUFSZ_MAX at hlen
        unfold rxbuf_ptr R_RX_BUF0
        unfold R_TX_CTRL0 R_TX_CTRL1 at hw
        dsimp only
        omega
      rw [regs_word_memcpy_other b _ _ _ _ (hoff _ (Or.inl rfl)),
        regs_word_memcpy_other b _ _ _ _ (hoff _ (Or.inr rfl))]
      exact ⟨h0, h1⟩

theorem tx_inv_run (b : Build) (t : List Access) (s : XlnxXpsEthLite)
    (h0 : regs_word b s.regs R_TX_CTRL0 &&& (CTRL_P ||| CTRL_S) = 0)
    (h1 : regs_word b s.regs R_TX_CTRL1 &&& (CTRL_P ||| CTRL_S) = 0) :
    regs_word b (run b s t).regs R_TX_CTRL0 &&& (CTRL_P ||| CTRL_S) = 0 ∧
    regs_word b (run b s t).regs R_TX_CTRL1 &&& (CTRL_P ||| CTRL_S) = 0 := by
  induction t generalizing s with
  | nil => exact ⟨h0, h1⟩
  | cons a t ih =>
    obtain ⟨g0, g1⟩ := tx_inv_step b s a h0 h1
    exact ih (step b s a) g0 g1

theorem rxbuf_ptr_of_le_one (p : Nat) (hp : p ≤ 1) : rxbuf_ptr p = 0x1000 + p * 0x800 := by
  unfold rxbuf_ptr R_RX_BUF0
  dsimp only
  omega

/-- C4: a frame of at least 6 and less than `0x7e4` bytes that passes the
destination filter, arriving while `port_index` is 0 or 1 and `CTRL_S` is clear
in the current port's `rx_ctrl`: `eth_rx` returns the size, the frame is in
the receive buffer of that port (from byte offset `0x1000 + p * 0x800`), the
port's `rx_ctrl` gains `CTRL_S`, and every other byte of `regs`, the other
port's `rx_ctrl`, both `tx_gie` fields and the MAC address are unchanged. -/
theorem eth_rx_stores_frame (s : XlnxXpsEthLite) (buf : List Nat)
    (hp : s.port_index ≤ 1)
    (hS : (s.port s.port_index).rx_ctrl &&& CTRL_S = 0)
    (_h6 : 6 ≤ buf.length) (hlt : buf.length < 0x7e4)
    (hda : buf.getD 0 0 &&& 0x80 ≠ 0 ∨ buf.take 6 = mac_bytes s) :
    (eth_rx s buf).ret = buf.length ∧
    (∀ i (hi : i < buf.length),
      (eth_rx s buf).state.regs (0x1000 + s.port_index * 0x800 + i) = buf[i]) ∧
    ((eth_rx s buf).state.port s.port_index).rx_ctrl
      = (s.port s.port_index).rx_ctrl ||| CTRL_S ∧
    (∀ j, j < 0x1000 + s.port_index * 0x800 ∨ 0x1000 + s.port_index * 0x800 + buf.length ≤ j →
      (eth_rx s buf).state.regs j = s.regs j) ∧
    ((eth_rx s buf).state.port (1 - s.port_index)).rx_ctrl
      = (s.port (1 - s.port_index)).rx_ctrl ∧
    ((eth_rx s buf).state.port 0).tx_gie = (s.port 0).tx_gie ∧
    ((eth_rx s buf).state.port 1).tx_gie = (s.port 1).tx_gie ∧
    (eth_rx s buf).state.macaddr = s.macaddr := by
  have hacc : rx_accepts s buf = true := by
    unfold rx_accepts
    have h1 : ¬ (buf.getD 0 0 &&& 0x80 = 0 ∧ mac_bytes s ≠ buf.take 6) := by
      rintro ⟨ha, hb⟩
      rcases hda with hd | hd
      · exact hd ha
      · exact hb hd.symm
    have h3 : buf.length < BUFSZ_MAX := hlt
    rw [decide_eq_false h1, decide_eq_true hS, decide_eq_true h3]
    rfl
  obtain ⟨hst, hret⟩ := eth_rx_of_accepts s buf hacc
  rw [hst, rxbuf_ptr_of_le_one _ hp]
  refine ⟨hret, ?_, ?_, ?_, ?_, ?_, ?_, rfl⟩
  · intro i hi
    dsimp only [memcpy_to]
    rw [if_pos ⟨by omega, by omega⟩, Nat.add_sub_cancel_left, List.getD_eq_getElem _ _ hi]
  · dsimp only
    rw [Function.update_same]
  · intro j hj
    dsimp only [memcpy_to]
    rw [if_neg (by omega)]
  · dsimp only
    rw [Function.update_noteq (by omega)]
  · dsimp only
    by_cases h : 0 = s.port_index
    · rw [← h, Function.update_same]
    · rw [Function.update_noteq h]
  · dsimp only
    by_cases h : 1 = s.port_index
    · rw [← h, Function.update_same]
    · rw [Function.update_noteq h]


theorem eth_rx_stores_frame_witness :
    (eth_rx example_device example_frame).ret = 8 ∧
    ((eth_rx example_device example_frame).state.port 0).rx_ctrl = CTRL_I ||| CTRL_S :=
  ⟨(eth_rx_stores_frame example_device example_frame (by decide) (by decide) (by decide)
      (by decide) (Or.inl (by decide))).1,
   (eth_rx_stores_frame example_device example_frame (by decide) (by decide) (by decide)
      (by decide) (Or.inl (by decide))).2.2.1⟩

theorem step_port_index (b : Build) (s : XlnxXpsEthLite) (a : Access)
    (hr : a.is_reset = false) :
    (step b s a).c_rx_pingpong = s.c_rx_pingpong ∧
    (step b s a).port_index =
      match a with
      | .rx buf => if rx_accepts s buf then s.port_index ^^^ s.c_rx_pingpong else s.port_index
      | _ => s.port_index := by
  cases a with
  | read addr => exact ⟨rfl, rfl⟩
  | reset => exact absurd hr (by decide)
  | write addr val64 =>
    exact ⟨(eth_write_port_index b s addr val64).2.1, (eth_write_port_index b s addr val64).1⟩
  | rx buf =>
    dsimp only [step]
    cases hacc : rx_accepts s buf with
    | false => rw [(eth_rx_of_not_accepts s buf hacc).1]; exact ⟨rfl, rfl⟩
    | true => rw [(eth_rx_of_accepts s buf hacc).1]; exact ⟨rfl, rfl⟩

theorem xor_one_of_le_one (p : Nat) (hp : p ≤ 1) : p ^^^ 1 = 1 - p := by
  interval_cases p <;> rfl

/-- With receive ping-pong on, the accepted frames alternate between the two
receive buffers, starting from the buffer `port_index` selects. -/
theorem rx_stores_pingpong (b : Build) (t : List Access) (s : XlnxXpsEthLite)
    (hp : s.port_index ≤ 1) (hc : s.c_rx_pingpong = 1)
    (hr : ∀ a ∈ t, a.is_reset = false) :
    rx_stores b s t =
      (List.range (rx_stores b s t).length).map
        (fun k => 0x1000 + (s.port_index + k) % 2 * 0x800) := by
  induction t generalizing s with
  | nil => rfl
  | cons a t ih =>
    have hra : a.is_reset = false := hr a (List.mem_cons_self a t)
    have hrt : ∀ x ∈ t, x.is_reset = false := fun x hx => hr x (List.mem_cons_of_mem a hx)
    obtain ⟨hc1, hp1⟩ := step_port_index b s a hra
    cases a with
    | reset => exact absurd hra (by decide)
    | read addr =>
      have ih1 := ih (step b s (.read addr)) (by rw [hp1]; exact hp) (by rw [hc1]; exact hc) hrt
      rw [hp1] at ih1
      exact ih1
    | write addr val64 =>
      have ih1 := ih (step b s (.write addr val64)) (by rw [hp1]; exact hp)
        (by rw [hc1]; exact hc) hrt
      rw [hp1] at ih1
      exact ih1
    | rx buf =>
      dsimp only at hp1
      cases hacc : rx_accepts s buf with
      | false =>
        rw [hacc] at hp1
        have ih1 := ih (step b s (.rx buf)) (by rw [hp1]; exact hp) (by rw [hc1]; exact hc) hrt
        rw [hp1] at ih1
        simp only [rx_stores, hacc, Bool.false_eq_true, if_false, List.nil_append]
        exact ih1
      | true =>
        rw [hacc, if_pos rfl, hc, xor_one_of_le_one _ hp] at hp1
        have ih1 := ih (step b s (.rx buf)) (by rw [hp1]; omega) (by rw [hc1]; exact hc) hrt
        rw [hp1] at ih1
        simp only [rx_stores, hacc, if_true, List.singleton_append, List.length_cons]
        rw [List.range_succ_eq_map, List.map_cons, List.map_map, rxbuf_ptr_of_le_one _ hp]
        refine List.cons_eq_cons.mpr ⟨by omega, ?_⟩
        rw [ih1]
        simp only [List.length_map, List.length_range]
        apply List.map_congr_left
        intro k _
        dsimp only [Function.comp]
        have e : (1 - s.port_index + k) % 2 = (s.port_index + k.succ) % 2 := by omega
        rw [e]

/-- With receive ping-pong off, every accepted frame goes to the buffer
`port_index` selects. -/
theorem rx_stores_single (b : Build) (t : List Access) (s : XlnxXpsEthLite)
    (hc : s.c_rx_pingpong = 0)
    (hr : ∀ a ∈ t, a.is_reset = false) :
    ∀ off ∈ rx_stores b s t, off = rxbuf_ptr s.port_index := by
  induction t generalizing s with
  | nil => intro off h; exact absurd h (List.not_mem_nil _)
  | cons a t ih =>
    have hra : a.is_reset = false := hr a (List.mem_cons_self a t)
    have hrt : ∀ x ∈ t, x.is_reset = false := fun x hx => hr x (List.mem_cons_of_mem a hx)
    obtain ⟨hc1, hp1⟩ := step_port_index b s a hra
    have hp2 : (step b s a).port_index = s.port_index := by
      rw [hp1]
      cases a with
      | rx buf => dsimp only; rw [hc, Nat.xor_zero]; split <;> rfl
      | _ => rfl
    have ih1 := ih (step b s a) (by rw [hc1]; exact hc) hrt
    rw [hp2] at ih1
    intro off hoff
    cases a with
    | rx buf =>
      simp only [rx_stores, List.mem_append] at hoff
      rcases hoff with h | h
      · split at h
        · exact List.mem_singleton.mp h
        · exact absurd h (List.not_mem_nil _)
      · exact ih1 off h
    | read addr => exact ih1 off hoff
    | write addr val64 => exact ih1 off hoff
    | reset => exact ih1 off hoff


/-- C5: a frame that `eth_rx` accepts is copied to the receive buffer
`port_index` selects and changes `port_index` to `port_index XOR c_rx_pingpong`;
a frame that is filtered out or rejected leaves `port_index` as it is.  Hence,
counting from a reset, with receive ping-pong 1 the k-th accepted frame goes to
receive buffer `k mod 2`, and with receive ping-pong 0 every accepted frame
goes to receive buffer 0. -/
theorem eth_rx_pingpong (b : Build) :
    (∀ s buf, rx_accepts s buf = true →
      (eth_rx s buf).state.port_index = s.port_index ^^^ s.c_rx_pingpong ∧
      ∀ i (hi : i < buf.length),
        (eth_rx s buf).state.regs (rxbuf_ptr s.port_index + i) = buf[i]) ∧
    (∀ s buf, rx_accepts s buf = false → (eth_rx s buf).state.port_index = s.port_index) ∧
    (∀ s t, s.c_rx_pingpong = 1 → (∀ a ∈ t, a.is_reset = false) →
      rx_stores b (xilinx_ethlite_reset s) t =
        (List.range (rx_stores b (xilinx_ethlite_reset s) t).length).map
          (fun k => if k % 2 = 0 then 4 * R_RX_BUF0 else 4 * R_RX_BUF1)) ∧
    (∀ s t, s.c_rx_pingpong = 0 → (∀ a ∈ t, a.is_reset = false) →
      ∀ off ∈ rx_stores b (xilinx_ethlite_reset s) t, off = 4 * R_RX_BUF0) := by
  refine ⟨?_, ?_, ?_, ?_⟩
  · intro s buf hacc
    rw [(eth_rx_of_accepts s buf hacc).1]
    refine ⟨rfl, ?_⟩
    intro i hi
    dsimp only [memcpy_to]
    rw [if_pos ⟨by omega, by omega⟩, Nat.add_sub_cancel_left, List.getD_eq_getElem _ _ hi]
  · intro s buf hacc
    rw [(eth_rx_of_not_accepts s buf hacc).1]
  · intro s t hc hr
    have h := rx_stores_pingpong b t (xilinx_ethlite_reset s) (Nat.zero_le 1) hc hr
    rw [h]
    simp only [List.length_map, List.length_range]
    apply List.map_congr_left
    intro k _
    have e : (xilinx_ethlite_reset s).port_index = 0 := rfl
    rw [e]
    unfold R_RX_BUF0 R_RX_BUF1
    split <;> omega
  · intro s t hc hr off hoff
    rw [rx_stores_single b t (xilinx_ethlite_reset s) hc hr off hoff]
    exact rxbuf_ptr_of_le_one 0 (Nat.zero_le 1)

theorem eth_rx_pingpong_witness :
    (eth_rx example_device example_frame).state.port_index = 0 ^^^ 1 ∧
    (eth_rx example_device example_frame_other).state.port_index = 0 ∧
    rx_stores example_build (xilinx_ethlite_reset example_device) example_trace =
      (List.range
          (rx_stores example_build (xilinx_ethlite_reset example_device) example_trace).length).map
        (fun k => if k % 2 = 0 then 4 * R_RX_BUF0 else 4 * R_RX_BUF1) ∧
    (∀ off ∈ rx_stores example_build (xilinx_ethlite_reset example_device_single) example_trace,
      off = 4 * R_RX_BUF0) :=
  ⟨((eth_rx_pingpong example_build).1 example_device example_frame (by decide)).1,
   (eth_rx_pingpong example_build).2.1 example_device example_frame_other (by decide),
   (eth_rx_pingpong example_build).2.2.1 example_device example_trace rfl (by decide),
   (eth_rx_pingpong example_build).2.2.2 example_device_single example_trace rfl (by decide)⟩

theorem eth_pulse_irq_mem (s : XlnxXpsEthLite) (h : Event.irq_pulse ∈ eth_pulse_irq s) :
    (s.port 0).tx_gie &&& GIE_GIE ≠ 0 := by
  unfold eth_pulse_irq at h
  split at h
  · assumption
  · exact absurd h (List.not_mem_nil _)

theorem eth_pulse_irq_port (s1 s2 : XlnxXpsEthLite) (h : (s1.port 0).tx_gie = (s2.port 0).tx_gie) :
    eth_pulse_irq s1 = eth_pulse_irq s2 := by
  unfold eth_pulse_irq; rw [h]

theorem eth_write_irq (b : Build) (s : XlnxXpsEthLite) (addr val64 : Nat)
    (h : Event.irq_pulse ∈ (eth_write b s addr val64).2) :
    (s.port 0).tx_gie &&& GIE_GIE ≠ 0 := by
  unfold eth_write at h
  dsimp only at h
  split_ifs at h <;>
    first
    | exact eth_pulse_irq_mem s h
    | exact absurd h (List.not_mem_nil _)
    | (rcases List.mem_cons.mp h with h1 | h1
       · exact Event.noConfusion h1
       · first
         | exact eth_pulse_irq_mem s h1
         | exact absurd h1 (List.not_mem_nil _))

theorem eth_rx_irq (s : XlnxXpsEthLite) (buf : List Nat)
    (h : Event.irq_pulse ∈ (eth_rx s buf).events) :
    (s.port 0).tx_gie &&& GIE_GIE ≠ 0 := by
  unfold eth_rx at h
  dsimp only at h
  split_ifs at h <;>
    first
    | exact absurd h (List.not_mem_nil _)
    | skip
  have h2 := eth_pulse_irq_mem _ h
  dsimp only at h2
  by_cases h0 : s.port_index = 0
  · rw [h0, Function.update_same] at h2
    exact h2
  · rw [Function.update_noteq (Ne.symm h0)] at h2
    exact h2


theorem with_port1_tx_gie_port (s : XlnxXpsEthLite) (g p : Nat) (hp : p ≠ 1) :
    (with_port1_tx_gie s g).port p = s.port p := by
  unfold with_port1_tx_gie
  dsimp only
  rw [Function.update_noteq hp]

theorem with_port1_tx_gie_rx_ctrl (s : XlnxXpsEthLite) (g p : Nat) :
    ((with_port1_tx_gie s g).port p).rx_ctrl = (s.port p).rx_ctrl := by
  by_cases hp : p = 1
  · subst hp
    unfold with_port1_tx_gie
    dsimp only
    rw [Function.update_same]
  · rw [with_port1_tx_gie_port s g p hp]

theorem port_ext (f h : Nat → XlnxXpsEthLitePort) (g : Nat)
    (h0 : ∀ p, p ≠ 1 → f p = h p) (h1 : f 1 = { h 1 with tx_gie := g }) :
    f = Function.update h 1 { h 1 with tx_gie := g } := by
  funext p
  by_cases hp : p = 1
  · subst hp; rw [Function.update_same]; exact h1
  · rw [Function.update_noteq hp]; exact h0 p hp

theorem eth_write_with_port1_tx_gie (b : Build) (s : XlnxXpsEthLite) (g addr val64 : Nat) :
    (eth_write b (with_port1_tx_gie s g) addr val64).2 = (eth_write b s addr val64).2 ∧
    (eth_write b (with_port1_tx_gie s g) addr val64).1
      = with_port1_tx_gie (eth_write b s addr val64).1 g := by
  have hirq : eth_pulse_irq (with_port1_tx_gie s g) = eth_pulse_irq s :=
    eth_pulse_irq_port _ _ (by rw [with_port1_tx_gie_port s g 0 (by decide)])
  have hregs : (with_port1_tx_gie s g).regs = s.regs := rfl
  have hmac : (with_port1_tx_gie s g).macaddr = s.macaddr := rfl
  have hgie : addr >>> 2 = R_TX_GIE0 → addr_to_port_index addr = 0 := by
    intro h
    rw [addr_to_port_index_eq]
    rw [Nat.shiftRight_eq_div_pow] at h
    unfold R_TX_GIE0 at h
    omega
  unfold eth_write
  dsimp only
  rw [hirq, hregs, hmac]
  split_ifs with c1 c2 c3 c4 c5 c6 c7 c8
  all_goals refine ⟨rfl, ?_⟩
  all_goals unfold with_port1_tx_gie
  all_goals dsimp only
  all_goals congr 1
  all_goals
    first
    | (rw [hgie ‹_›]
       apply port_ext
       · intro p hp
         by_cases h0 : p = 0
         · subst h0
           rw [Function.update_same, Function.update_same, Function.update_noteq (by decide)]
         · rw [Function.update_noteq h0, Function.update_noteq h0, Function.update_noteq hp]
       · rw [Function.update_noteq (by decide), Function.update_same,
           Function.update_noteq (by decide)])
    | (apply port_ext
       · intro p hp
         by_cases h0 : p = addr_to_port_index addr
         · subst h0
           rw [Function.update_same, Function.update_same, Function.update_noteq hp]
         · rw [Function.update_noteq h0, Function.update_noteq h0, Function.update_noteq hp]
       · by_cases h0 : 1 = addr_to_port_index addr
         · rw [← h0, Function.update_same, Function.update_same, Function.update_same]
         · rw [Function.update_noteq h0, Function.update_noteq h0, Function.update_same])


/-- The interrupt output of `eth_rx`. -/
theorem eth_rx_events (s : XlnxXpsEthLite) (buf : List Nat) :
    (eth_rx s buf).events =
      if rx_accepts s buf = true ∧ ((s.port s.port_index).rx_ctrl ||| CTRL_S) &&& CTRL_I ≠ 0
      then eth_pulse_irq s else [] := by
  cases hacc : rx_accepts s buf with
  | false =>
    rw [(eth_rx_of_not_accepts s buf hacc).2, if_neg (by simp)]
  | true =>
    simp only [rx_accepts, Bool.and_eq_true, Bool.not_eq_true', decide_eq_false_iff_not,
      decide_eq_true_eq] at hacc
    obtain ⟨⟨h1, h2⟩, h3⟩ := hacc
    have h3 : ¬ buf.length ≥ BUFSZ_MAX := by omega
    have h2 : ¬ (s.port s.port_index).rx_ctrl &&& CTRL_S ≠ 0 := by simpa using h2
    unfold eth_rx
    dsimp only
    rw [if_neg h1, if_neg h2, if_neg h3]
    dsimp only
    have e : ∀ x, eth_pulse_irq
        { s with regs := memcpy_to s.regs (rxbuf_ptr s.port_index) buf,
                 port := Function.update s.port s.port_index
                   { s.port s.port_index with rx_ctrl := x } } = eth_pulse_irq s := by
      intro x
      apply eth_pulse_irq_port
      dsimp only
      by_cases h0 : s.port_index = 0
      · rw [h0, Function.update_same]
      · rw [Function.update_noteq (Ne.symm h0)]
    rw [e]
    simp

theorem rx_accepts_with_port1_tx_gie (s : XlnxXpsEthLite) (g : Nat) (buf : List Nat) :
    rx_accepts (with_port1_tx_gie s g) buf = rx_accepts s buf := by
  unfold rx_accepts
  rw [with_port1_tx_gie_rx_ctrl]
  rfl

theorem eth_rx_with_port1_tx_gie (s : XlnxXpsEthLite) (g : Nat) (buf : List Nat) :
    (eth_rx (with_port1_tx_gie s g) buf).events = (eth_rx s buf).events ∧
    (eth_rx (with_port1_tx_gie s g) buf).ret = (eth_rx s buf).ret ∧
    (eth_rx (with_port1_tx_gie s g) buf).state = with_port1_tx_gie (eth_rx s buf).state g := by
  have hirq : eth_pulse_irq (with_port1_tx_gie s g) = eth_pulse_irq s :=
    eth_pulse_irq_port _ _ (by rw [with_port1_tx_gie_port s g 0 (by decide)])
  have hpi : (with_port1_tx_gie s g).port_index = s.port_index := rfl
  refine ⟨?_, ?_⟩
  · rw [eth_rx_events, eth_rx_events, rx_accepts_with_port1_tx_gie, hirq, hpi,
      with_port1_tx_gie_rx_ctrl]
  have hret : (eth_rx (with_port1_tx_gie s g) buf).ret = (eth_rx s buf).ret := by
    by_cases h1 : buf.getD 0 0 &&& 0x80 = 0 ∧ mac_bytes s ≠ buf.take 6
    · have h1g : buf.getD 0 0 &&& 0x80 = 0 ∧ mac_bytes (with_port1_tx_gie s g) ≠ buf.take 6 := h1
      unfold eth_rx
      dsimp only
      rw [if_pos h1, if_pos h1g]
    · have h1g : ¬ (buf.getD 0 0 &&& 0x80 = 0 ∧ mac_bytes (with_port1_tx_gie s g) ≠ buf.take 6) :=
        h1
      unfold eth_rx
      dsimp only
      rw [if_neg h1, if_neg h1g, hpi, with_port1_tx_gie_rx_ctrl]
      split_ifs <;> rfl
  refine ⟨hret, ?_⟩
  have hacc2 := rx_accepts_with_port1_tx_gie s g buf
  cases hacc : rx_accepts s buf with
  | false =>
    rw [hacc] at hacc2
    rw [(eth_rx_of_not_accepts _ buf hacc2).1, (eth_rx_of_not_accepts s buf hacc).1]
  | true =>
    rw [hacc] at hacc2
    rw [(eth_rx_of_accepts _ buf hacc2).1, (eth_rx_of_accepts s buf hacc).1]
    unfold with_port1_tx_gie
    dsimp only
    congr 1
    apply port_ext
    · intro p hp
      by_cases h0 : p = s.port_index
      · subst h0
        rw [Function.update_same, Function.update_same, Function.update_noteq hp]
      · rw [Function.update_noteq h0, Function.update_noteq h0, Function.update_noteq hp]
    · by_cases h0 : 1 = s.port_index
      · rw [← h0, Function.update_same, Function.update_same, Function.update_same]
      · rw [Function.update_noteq h0, Function.update_noteq h0, Function.update_same]

theorem eth_read_with_port1_tx_gie (b : Build) (s : XlnxXpsEthLite) (g addr : Nat) :
    eth_read b (with_port1_tx_gie s g) addr = eth_read b s addr := by
  have hregs : (with_port1_tx_gie s g).regs = s.regs := rfl
  have hgie : addr >>> 2 = R_TX_GIE0 → addr_to_port_index addr = 0 := by
    intro h
    rw [addr_to_port_index_eq]
    rw [Nat.shiftRight_eq_div_pow] at h
    unfold R_TX_GIE0 at h
    omega
  unfold eth_read
  dsimp only
  rw [hregs, with_port1_tx_gie_rx_ctrl]
  split_ifs with c1
  · rw [hgie c1, with_port1_tx_gie_port s g 0 (by decide)]
  all_goals rfl


/-- C6: a register write or a received frame raises an interrupt pulse only if
`GIE_GIE` (bit 31) is set in `port[0].reg.tx_gie` before the step, whichever
port the event concerns; and replacing `port[1].reg.tx_gie` by any value
changes neither the outputs of a step, nor the value a read returns, nor what
`eth_rx` returns, and the states after the step again differ in that field
only. -/
theorem irq_only_first_gie (b : Build) :
    (∀ s addr val64, Event.irq_pulse ∈ (eth_write b s addr val64).2 →
      (s.port 0).tx_gie &&& GIE_GIE ≠ 0) ∧
    (∀ s buf, Event.irq_pulse ∈ (eth_rx s buf).events → (s.port 0).tx_gie &&& GIE_GIE ≠ 0) ∧
    (∀ s g a, step_events b (with_port1_tx_gie s g) a = step_events b s a ∧
      step b (with_port1_tx_gie s g) a = with_port1_tx_gie (step b s a) g) ∧
    (∀ s g addr, eth_read b (with_port1_tx_gie s g) addr = eth_read b s addr) ∧
    (∀ s g buf, (eth_rx (with_port1_tx_gie s g) buf).ret = (eth_rx s buf).ret) := by
  refine ⟨eth_write_irq b, eth_rx_irq, ?_, eth_read_with_port1_tx_gie b,
    fun s g buf => (eth_rx_with_port1_tx_gie s g buf).2.1⟩
  intro s g a
  cases a with
  | write addr val64 => exact eth_write_with_port1_tx_gie b s g addr val64
  | read addr => exact ⟨rfl, rfl⟩
  | rx buf =>
    exact ⟨(eth_rx_with_port1_tx_gie s g buf).1, (eth_rx_with_port1_tx_gie s g buf).2.2⟩
  | reset => exact ⟨rfl, rfl⟩

theorem irq_only_first_gie_witness :
    (example_device.port 0).tx_gie &&& GIE_GIE ≠ 0 ∧
    ((eth_write example_build example_device 0xffc 8).1.port 0).tx_gie &&& GIE_GIE ≠ 0 :=
  ⟨(irq_only_first_gie example_build).2.1 example_device example_frame (by decide),
   (irq_only_first_gie example_build).1
      (eth_write example_build example_device 0xffc 8).1 0xffc 9 (by decide)⟩

theorem or_ctrl_s_ne (x : Nat) (h : x &&& CTRL_S = 0) : x ||| CTRL_S ≠ x := by
  intro h2
  have h3 : (x ||| CTRL_S) &&& CTRL_S = CTRL_S := by
    rw [Nat.and_distrib_right, h]; rfl
  rw [h2, h] at h3
  exact absurd h3 (by decide)

/-- C7: a frame of at least six bytes is ignored by `eth_rx` (the size is
returned, the device is unchanged, no interrupt pulse) exactly when bit `0x80`
of its first byte is clear and its first six bytes differ from the configured
MAC address, in every device state and for every frame size. -/
theorem eth_rx_da_filter (s : XlnxXpsEthLite) (buf : List Nat) (_h6 : 6 ≤ buf.length) :
    ((eth_rx s buf).ret = buf.length ∧ (eth_rx s buf).state = s ∧
        Event.irq_pulse ∉ (eth_rx s buf).events) ↔
      (buf.getD 0 0 &&& 0x80 = 0 ∧ buf.take 6 ≠ mac_bytes s) := by
  constructor
  · rintro ⟨hret, hst, -⟩
    by_contra hda
    have h1 : ¬ (buf.getD 0 0 &&& 0x80 = 0 ∧ mac_bytes s ≠ buf.take 6) :=
      fun h => hda ⟨h.1, fun e => h.2 e.symm⟩
    cases hacc : rx_accepts s buf with
    | true =>
      have hS : (s.port s.port_index).rx_ctrl &&& CTRL_S = 0 := by
        simp only [rx_accepts, Bool.and_eq_true, decide_eq_true_eq] at hacc
        exact hacc.1.2
      rw [(eth_rx_of_accepts s buf hacc).1] at hst
      have h2 := congrArg (fun t => (t.port s.port_index).rx_ctrl) hst
      dsimp only at h2
      rw [Function.update_same] at h2
      exact or_ctrl_s_ne _ hS h2
    | false =>
      have hneg : (eth_rx s buf).ret = -1 := by
        unfold eth_rx
        dsimp only
        rw [if_neg h1]
        split_ifs with hS hlen
        · rfl
        · rfl
        · exfalso
          have hlen : buf.length < BUFSZ_MAX := by omega
          have hS : (s.port s.port_index).rx_ctrl &&& CTRL_S = 0 := by
            by_contra hc; exact hS hc
          unfold rx_accepts at hacc
          rw [decide_eq_false h1, decide_eq_true hS, decide_eq_true hlen] at hacc
          exact absurd hacc (by decide)
      rw [hneg] at hret
      omega
  · rintro ⟨h0, hne⟩
    have h1 : buf.getD 0 0 &&& 0x80 = 0 ∧ mac_bytes s ≠ buf.take 6 := ⟨h0, fun e => hne e.symm⟩
    unfold eth_rx
    dsimp only
    rw [if_pos h1]
    exact ⟨rfl, rfl, List.not_mem_nil _⟩


theorem eth_rx_da_filter_witness :
    ((eth_rx example_device example_frame_other).ret = example_frame_other.length ∧
      (eth_rx example_device example_frame_other).state = example_device ∧
      Event.irq_pulse ∉ (eth_rx example_device example_frame_other).events) ∧
    ¬ ((eth_rx example_device example_frame).ret = example_frame.length ∧
      (eth_rx example_device example_frame).state = example_device ∧
      Event.irq_pulse ∉ (eth_rx example_device example_frame).events) :=
  ⟨(eth_rx_da_filter example_device example_frame_other (by decide)).mpr
      ⟨by decide, by decide⟩,
   fun h => absurd ((eth_rx_da_filter example_device example_frame (by decide)).mp h).1
      (by decide)⟩

theorem xor_le_one (p c : Nat) (hp : p ≤ 1) (hc : c ≤ 1) : p ^^^ c ≤ 1 := by
  interval_cases p <;> interval_cases c <;> decide

/-- With receive ping-pong 0 or 1 the dual port RAM index stays 0 or 1. -/
theorem port_index_step (b : Build) (s : XlnxXpsEthLite) (a : Access)
    (hp : s.port_index ≤ 1) (hc : s.c_rx_pingpong ≤ 1) :
    (step b s a).port_index ≤ 1 ∧ (step b s a).c_rx_pingpong ≤ 1 := by
  cases hr : a.is_reset with
  | true =>
    cases a with
    | reset => exact ⟨Nat.zero_le 1, hc⟩
    | read addr => exact Bool.noConfusion hr
    | write addr val64 => exact Bool.noConfusion hr
    | rx buf => exact Bool.noConfusion hr
  | false =>
    obtain ⟨h1, h2⟩ := step_port_index b s a hr
    rw [h1, h2]
    refine ⟨?_, hc⟩
    cases a with
    | rx buf =>
      dsimp only
      split
      · exact xor_le_one _ _ hp hc
      · exact hp
    | read addr => exact hp
    | write addr val64 => exact hp
    | reset => exact hp

theorem port_index_run (b : Build) (t : List Access) (s : XlnxXpsEthLite)
    (hp : s.port_index ≤ 1) (hc : s.c_rx_pingpong ≤ 1) :
    (run b s t).port_index ≤ 1 := by
  induction t generalizing s with
  | nil => exact hp
  | cons a t ih =>
    obtain ⟨g1, g2⟩ := port_index_step b s a hp hc
    exact ih (step b s a) g1 g2

/-- C3, for the configurations on which the code stays inside its arrays: with
rx-ping-pong 0 or 1, in every state reached from the zero-initialised device
by any sequence of register writes, register reads, received frames and
resets, `port_index` is 0 or 1, the stored words `regs[R_TX_CTRL0]` and
`regs[R_TX_CTRL1]` have `CTRL_S` and `CTRL_P` clear, and so has the value a
read of either transmit control register returns.  With rx-ping-pong `0x101`
the first accepted frame leaves `port_index` at `0x101`, past the two entries
of `port[]`. -/
theorem tx_ctrl_status_bits_never_stored (b : Build) :
    (∀ (mac : Nat → Nat) (c_tx c_rx : Nat) (t : List Access), c_rx ≤ 1 →
      (run b (ethlite_init mac c_tx c_rx) t).port_index ≤ 1 ∧
      regs_word b (run b (ethlite_init mac c_tx c_rx) t).regs R_TX_CTRL0
          &&& (CTRL_P ||| CTRL_S) = 0 ∧
      regs_word b (run b (ethlite_init mac c_tx c_rx) t).regs R_TX_CTRL1
          &&& (CTRL_P ||| CTRL_S) = 0 ∧
      eth_read b (run b (ethlite_init mac c_tx c_rx) t) 0x7fc &&& (CTRL_P ||| CTRL_S) = 0 ∧
      eth_read b (run b (ethlite_init mac c_tx c_rx) t) 0xffc &&& (CTRL_P ||| CTRL_S) = 0) ∧
    (∀ (mac : Nat → Nat) (c_tx : Nat),
      (run b (ethlite_init mac c_tx 0x101) [.rx example_frame]).port_index = 0x101) := by
  constructor
  · intro mac c_tx c_rx t hc
    have hz : ∀ w, regs_word b (ethlite_init mac c_tx c_rx).regs w = 0 := by
      intro w; unfold regs_word ethlite_init; simp
    obtain ⟨g0, g1⟩ := tx_inv_run b t (ethlite_init mac c_tx c_rx)
      (by rw [hz]; exact Nat.zero_and _) (by rw [hz]; exact Nat.zero_and _)
    have r0 : ∀ s, eth_read b s 0x7fc = regs_word b s.regs R_TX_CTRL0 := by
      intro s; unfold eth_read
      have w : (0x7fc : Nat) >>> 2 = R_TX_CTRL0 := by decide
      rw [w]
      simp [R_TX_CTRL0, R_TX_GIE0]
    have r1 : ∀ s, eth_read b s 0xffc = regs_word b s.regs R_TX_CTRL1 := by
      intro s; unfold eth_read
      have w : (0xffc : Nat) >>> 2 = R_TX_CTRL1 := by decide
      rw [w]
      simp [R_TX_CTRL1, R_TX_GIE0]
    exact ⟨port_index_run b t (ethlite_init mac c_tx c_rx) (Nat.zero_le 1) hc,
      g0, g1, by rw [r0]; exact g0, by rw [r1]; exact g1⟩
  · intro mac c_tx
    have h1 : ¬ (example_frame.getD 0 0 &&& 0x80 = 0 ∧
        mac_bytes (ethlite_init mac c_tx 0x101) ≠ example_frame.take 6) :=
      fun h => absurd h.1 (by decide)
    have h2 : ((ethlite_init mac c_tx 0x101).port (ethlite_init mac c_tx 0x101).port_index).rx_ctrl
        &&& CTRL_S = 0 := by
      show (0 : Nat) &&& CTRL_S = 0
      decide
    have h3 : example_frame.length < BUFSZ_MAX := by decide
    have hacc : rx_accepts (ethlite_init mac c_tx 0x101) example_frame = true := by
      unfold rx_accepts
      rw [decide_eq_false h1, decide_eq_true h2, decide_eq_true h3]
      rfl
    show (eth_rx (ethlite_init mac c_tx 0x101) example_frame).state.port_index = 0x101
    rw [(eth_rx_of_accepts _ _ hacc).1]
    show (0 : Nat) ^^^ 0x101 = 0x101
    decide

theorem tx_ctrl_status_bits_never_stored_witness :
    (run example_build (ethlite_init (fun i => 0x10 + i) 1 1) example_trace).port_index ≤ 1 ∧
    eth_read example_build (run example_build (ethlite_init (fun i => 0x10 + i) 1 1)
      example_trace) 0x7fc &&& (CTRL_P ||| CTRL_S) = 0 :=
  ⟨((tx_ctrl_status_bits_never_stored example_build).1 (fun i => 0x10 + i) 1 1 example_trace
      (by decide)).1,
   ((tx_ctrl_status_bits_never_stored example_build).1 (fun i => 0x10 + i) 1 1 example_trace
      (by decide)).2.2.2.1⟩

end XilinxEthlite

/-! # Theorems: plugin registry -/

namespace Plugin

theorem test_bit_set_bit (nr i m : Nat) :
    test_bit i (set_bit nr m) = (test_bit i m || decide (nr = i)) := by
  unfold test_bit set_bit
  rw [Nat.testBit_or, Nat.one_shiftLeft, Nat.testBit_two_pow]

theorem test_bit_clear_bit (nr i m : Nat) :
    test_bit i (clear_bit nr m) = (test_bit i m && !decide (nr = i)) := by
  unfold test_bit clear_bit
  rw [Nat.testBit_xor, Nat.testBit_and, Nat.one_shiftLeft, Nat.testBit_two_pow]
  cases m.testBit i <;> cases decide (nr = i) <;> rfl

theorem mask_ok_register (s : qemu_plugin_state) (id ev func : Nat) (udata : Option Nat)
    (h : ∀ e, test_bit e s.mask = true ↔ s.cb_lists e ≠ []) :
    ∀ e, test_bit e (plugin_register_cb_udata s id ev func udata).1.mask = true ↔
      (plugin_register_cb_udata s id ev func udata).1.cb_lists e ≠ [] := by
  intro e
  unfold plugin_register_cb_udata
  cases plugin_id_to_ctx_locked s id with
  | none => exact h e
  | some c =>
    dsimp only
    rw [test_bit_set_bit]
    by_cases he : e = ev
    · subst he
      rw [Function.update_same]
      simp
    · rw [Function.update_noteq he]
      have : decide (ev = e) = false := decide_eq_false (fun x => he x.symm)
      rw [this, Bool.or_false]
      exact h e

theorem mask_ok_unregister (s : qemu_plugin_state) (ctx ev : Nat)
    (h : ∀ e, test_bit e s.mask = true ↔ s.cb_lists e ≠ []) :
    ∀ e, test_bit e (plugin_unregister_cb__locked s ctx ev).mask = true ↔
      (plugin_unregister_cb__locked s ctx ev).cb_lists e ≠ [] := by
  intro e
  unfold plugin_unregister_cb__locked
  dsimp only
  by_cases he : e = ev
  · subst he
    rw [Function.update_same]
    by_cases hr : (List.filter (fun cb => cb.ctx != ctx) (s.cb_lists e)).isEmpty = true
    · rw [if_pos hr, test_bit_clear_bit]
      have hnil := List.isEmpty_iff.mp hr
      rw [hnil]
      simp
    · rw [if_neg hr]
      have hne : List.filter (fun cb => cb.ctx != ctx) (s.cb_lists e) ≠ [] :=
        fun x => hr (List.isEmpty_iff.mpr x)
      have hne2 : s.cb_lists e ≠ [] := by
        intro x; rw [x] at hne; exact hne rfl
      exact ⟨fun _ => hne, fun _ => (h e).mpr hne2⟩
  · rw [Function.update_noteq he]
    have hd : decide (ev = e) = false := decide_eq_false (fun x => he x.symm)
    split
    · rw [test_bit_clear_bit, hd]
      simpa using h e
    · exact h e

theorem mask_ok_unregister_all (evmax : Nat) (s : qemu_plugin_state) (ctx : Nat)
    (h : ∀ e, test_bit e s.mask = true ↔ s.cb_lists e ≠ []) :
    ∀ e, test_bit e (plugin_unregister_all evmax s ctx).mask = true ↔
      (plugin_unregister_all evmax s ctx).cb_lists e ≠ [] := by
  unfold plugin_unregister_all
  generalize List.range evmax = evs
  induction evs generalizing s with
  | nil => exact h
  | cons ev evs ih => exact ih _ (mask_ok_unregister s ctx ev h)

theorem mask_ok_reset_destroy (evmax : Nat) (s : qemu_plugin_state) (id : Nat) (reset : Bool)
    (h : ∀ e, test_bit e s.mask = true ↔ s.cb_lists e ≠ []) :
    ∀ e, test_bit e (plugin_reset_destroy evmax s id reset).1.mask = true ↔
      (plugin_reset_destroy evmax s id reset).1.cb_lists e ≠ [] := by
  unfold plugin_reset_destroy
  dsimp only
  cases reset with
  | true => exact mask_ok_unregister_all evmax s id h
  | false => exact mask_ok_unregister_all evmax s id h

theorem mask_ok_install (s : qemu_plugin_state) (load_ok : Bool)
    (h : ∀ e, test_bit e s.mask = true ↔ s.cb_lists e ≠ []) :
    ∀ e, test_bit e (install s load_ok).1.mask = true ↔
      (install s load_ok).1.cb_lists e ≠ [] := by
  unfold install
  dsimp only
  cases load_ok <;> exact h

theorem mask_ok_reset_uninstall (evmax : Nat) (s : qemu_plugin_state) (id : Nat)
    (reset in_callback : Bool)
    (h : ∀ e, test_bit e s.mask = true ↔ s.cb_lists e ≠ []) :
    ∀ e, test_bit e (plugin_reset_uninstall evmax s id reset in_callback).1.mask = true ↔
      (plugin_reset_uninstall evmax s id reset in_callback).1.cb_lists e ≠ [] := by
  unfold plugin_reset_uninstall
  cases plugin_id_to_ctx_locked s id with
  | none => exact h
  | some c =>
    dsimp only
    cases in_callback with
    | true => exact h
    | false => exact mask_ok_reset_destroy evmax s id reset h

theorem mask_ok_callback_return (evmax : Nat) (s : qemu_plugin_state) (id : Nat)
    (h : ∀ e, test_bit e s.mask = true ↔ s.cb_lists e ≠ []) :
    ∀ e, test_bit e (callback_return evmax s id).1.mask = true ↔
      (callback_return evmax s id).1.cb_lists e ≠ [] := by
  unfold callback_return
  cases plugin_id_to_ctx_locked s id with
  | none => exact h
  | some c =>
    dsimp only
    split
    · exact mask_ok_reset_destroy evmax s id false h
    · split
      · exact mask_ok_reset_destroy evmax s id true h
      · exact h

theorem mask_ok_apply_op (evmax : Nat) (s : qemu_plugin_state) (op : Op)
    (h : ∀ e, test_bit e s.mask = true ↔ s.cb_lists e ≠ []) :
    ∀ e, test_bit e (apply_op evmax s op).1.mask = true ↔
      (apply_op evmax s op).1.cb_lists e ≠ [] := by
  cases op with
  | install load_ok => exact mask_ok_install s load_ok h
  | reset_uninstall id reset in_callback =>
    exact mask_ok_reset_uninstall evmax s id reset in_callback h
  | callback_return id => exact mask_ok_callback_return evmax s id h
  | register_cb id ev func => exact mask_ok_register s id ev func none h
  | register_cb_udata id ev func udata => exact mask_ok_register s id ev func udata h
  | unregister_cb ctx ev => exact mask_ok_unregister s ctx ev h

theorem mask_ok_run_ops (evmax : Nat) (ops : List Op) (s : qemu_plugin_state)
    (h : ∀ e, test_bit e s.mask = true ↔ s.cb_lists e ≠ []) :
    ∀ e, test_bit e (run_ops evmax s ops).1.mask = true ↔
      (run_ops evmax s ops).1.cb_lists e ≠ [] := by
  induction ops generalizing s with
  | nil => exact h
  | cons op ops ih => exact ih _ (mask_ok_apply_op evmax s op h)


theorem find_map_id (l : List qemu_plugin_ctx) (f : qemu_plugin_ctx → qemu_plugin_ctx)
    (hf : ∀ c, (f c).id = c.id) (id : Nat) :
    ((l.map f).find? (fun c => c.id == id)).isSome = (l.find? (fun c => c.id == id)).isSome := by
  induction l with
  | nil => rfl
  | cons c l ih =>
    rw [List.map_cons, List.find?_cons, List.find?_cons, hf c]
    cases c.id == id with
    | true => rfl
    | false => exact ih

theorem map_id_map (l : List qemu_plugin_ctx) (f : qemu_plugin_ctx → qemu_plugin_ctx)
    (hf : ∀ c, (f c).id = c.id) :
    (l.map f).map (fun c => c.id) = l.map (fun c => c.id) := by
  rw [List.map_map]
  apply List.map_congr_left
  intro c _
  exact hf c

theorem register_lookup (s : qemu_plugin_state) (id ev func : Nat) (udata : Option Nat)
    (id2 : Nat) :
    (plugin_id_to_ctx_locked (plugin_register_cb_udata s id ev func udata).1 id2).isSome
      = (plugin_id_to_ctx_locked s id2).isSome := by
  unfold plugin_register_cb_udata
  cases plugin_id_to_ctx_locked s id with
  | none => rfl
  | some c =>
    unfold plugin_id_to_ctx_locked
    dsimp only
    split
    · apply find_map_id
      intro c; split <;> rfl
    · rfl

theorem register_found (s : qemu_plugin_state) (id ev func : Nat) (udata : Option Nat)
    (h : (plugin_id_to_ctx_locked s id).isSome = true) :
    (plugin_register_cb_udata s id ev func udata).1.cb_lists ev
        = s.cb_lists ev ++ [{ ctx := id, func := func, udata := udata }] ∧
    test_bit ev (plugin_register_cb_udata s id ev func udata).1.mask = true := by
  unfold plugin_register_cb_udata
  cases hl : plugin_id_to_ctx_locked s id with
  | none => rw [hl] at h; exact absurd h (by decide)
  | some c =>
    dsimp only
    rw [Function.update_same, test_bit_set_bit]
    exact ⟨rfl, by simp⟩

theorem fire_eq_map (s : qemu_plugin_state) (ev args : Nat)
    (h : test_bit ev s.mask = true ↔ s.cb_lists ev ≠ []) :
    fire s ev args =
      (s.cb_lists ev).map (fun cb => { func := cb.func, udata := cb.udata, args := args }) := by
  unfold fire
  split
  · rfl
  · rename_i hb
    have : s.cb_lists ev = [] := by
      by_contra hne; exact hb (h.mpr hne)
    rw [this]; rfl

theorem subscribe_all_cons (s : qemu_plugin_state) (ev : Nat) (sub : Subscription)
    (subs : List Subscription) :
    subscribe_all s ev (sub :: subs) =
      subscribe_all (plugin_register_cb_udata s sub.id ev sub.func sub.udata).1 ev subs := by
  rw [subscribe_all]
  cases h : sub.udata <;> rfl

theorem subscribe_all_cb_list (ev : Nat) (subs : List Subscription) (s : qemu_plugin_state)
    (hmask : test_bit ev s.mask = true ↔ s.cb_lists ev ≠ [])
    (hids : ∀ sub ∈ subs, (plugin_id_to_ctx_locked s sub.id).isSome = true) :
    (subscribe_all s ev subs).cb_lists ev =
      s.cb_lists ev ++ subs.map (fun sub => { ctx := sub.id, func := sub.func, udata := sub.udata }) ∧
    (test_bit ev (subscribe_all s ev subs).mask = true ↔
      (subscribe_all s ev subs).cb_lists ev ≠ []) := by
  induction subs generalizing s with
  | nil => exact ⟨by simp [subscribe_all], hmask⟩
  | cons sub subs ih =>
    rw [subscribe_all_cons]
    obtain ⟨h1, h2⟩ := register_found s sub.id ev sub.func sub.udata
      (hids sub (List.mem_cons_self sub subs))
    have hm : test_bit ev (plugin_register_cb_udata s sub.id ev sub.func sub.udata).1.mask = true ↔
        (plugin_register_cb_udata s sub.id ev sub.func sub.udata).1.cb_lists ev ≠ [] := by
      rw [h1]; simp [h2]
    have hi : ∀ x ∈ subs, (plugin_id_to_ctx_locked
        (plugin_register_cb_udata s sub.id ev sub.func sub.udata).1 x.id).isSome = true := by
      intro x hx
      rw [register_lookup]
      exact hids x (List.mem_cons_of_mem sub hx)
    obtain ⟨g1, g2⟩ := ih _ hm hi
    refine ⟨?_, g2⟩
    rw [g1, h1, List.map_cons, List.append_assoc]
    rfl

/-- C8: from a registry whose active bit for event `ev` agrees with its list,
after a sequence of subscriptions to `ev` by ids that lookup finds, firing
`ev` invokes the callbacks registered before followed by the new ones in
exactly the order of registration, each with its stored user data, and a
second firing invokes the same callbacks in the same order. -/
theorem fire_in_registration_order (s : qemu_plugin_state) (ev : Nat) (subs : List Subscription)
    (args1 args2 : Nat)
    (hmask : test_bit ev s.mask = true ↔ s.cb_lists ev ≠ [])
    (hids : ∀ sub ∈ subs, (plugin_id_to_ctx_locked s sub.id).isSome = true) :
    fire (subscribe_all s ev subs) ev args1 =
      fire s ev args1 ++
        subs.map (fun sub => { func := sub.func, udata := sub.udata, args := args1 }) ∧
    fire (subscribe_all s ev subs) ev args2 =
      fire s ev args2 ++
        subs.map (fun sub => { func := sub.func, udata := sub.udata, args := args2 }) := by
  obtain ⟨h1, h2⟩ := subscribe_all_cb_list ev subs s hmask hids
  constructor
  · rw [fire_eq_map _ ev args1 h2, fire_eq_map s ev args1 hmask, h1, List.map_append,
      List.map_map]
    rfl
  · rw [fire_eq_map _ ev args2 h2, fire_eq_map s ev args2 hmask, h1, List.map_append,
      List.map_map]
    rfl


theorem fire_in_registration_order_witness :
    fire (subscribe_all example_registry 2 example_subscriptions) 2 40 =
      fire example_registry 2 40 ++ [⟨100, none, 40⟩, ⟨200, some 7, 40⟩, ⟨300, some 8, 40⟩] ∧
    fire (subscribe_all example_registry 2 example_subscriptions) 2 41 =
      fire example_registry 2 41 ++ [⟨100, none, 41⟩, ⟨200, some 7, 41⟩, ⟨300, some 8, 41⟩] :=
  fire_in_registration_order example_registry 2 example_subscriptions 40 41
    (by decide) (by decide)

theorem id_inv_frame (s t : qemu_plugin_state) (log : List Output)
    (h : IdInv s log) (h1 : t.id_ht = s.id_ht) (h2 : t.next_id = s.next_id)
    (h3 : t.ctxs.map (fun c => c.id) = s.ctxs.map (fun c => c.id)) :
    IdInv t log := by
  unfold IdInv at *
  rw [h1, h2, h3]
  exact h

theorem unregister_frame (s : qemu_plugin_state) (ctx ev : Nat) :
    (plugin_unregister_cb__locked s ctx ev).id_ht = s.id_ht ∧
    (plugin_unregister_cb__locked s ctx ev).next_id = s.next_id ∧
    (plugin_unregister_cb__locked s ctx ev).ctxs.map (fun c => c.id)
      = s.ctxs.map (fun c => c.id) := by
  unfold plugin_unregister_cb__locked
  dsimp only
  refine ⟨rfl, rfl, ?_⟩
  apply map_id_map
  intro c; split <;> rfl

theorem unregister_all_frame (evmax : Nat) (s : qemu_plugin_state) (ctx : Nat) :
    (plugin_unregister_all evmax s ctx).id_ht = s.id_ht ∧
    (plugin_unregister_all evmax s ctx).next_id = s.next_id ∧
    (plugin_unregister_all evmax s ctx).ctxs.map (fun c => c.id)
      = s.ctxs.map (fun c => c.id) := by
  unfold plugin_unregister_all
  generalize List.range evmax = evs
  induction evs generalizing s with
  | nil => exact ⟨rfl, rfl, rfl⟩
  | cons ev evs ih =>
    obtain ⟨a1, a2, a3⟩ := unregister_frame s ctx ev
    obtain ⟨b1, b2, b3⟩ := ih (plugin_unregister_cb__locked s ctx ev)
    rw [List.foldl_cons]
    exact ⟨b1.trans a1, b2.trans a2, b3.trans a3⟩

theorem installed_ids_append (l1 l2 : List Output) :
    installed_ids (l1 ++ l2) = installed_ids l1 ++ installed_ids l2 := by
  unfold installed_ids; rw [List.filterMap_append]

theorem uninstalled_ids_append (l1 l2 : List Output) :
    uninstalled_ids (l1 ++ l2) = uninstalled_ids l1 ++ uninstalled_ids l2 := by
  unfold uninstalled_ids; rw [List.filterMap_append]

theorem id_inv_reset_destroy (evmax : Nat) (s : qemu_plugin_state) (id : Nat) (reset : Bool)
    (log : List Output) (h : IdInv s log) (hid : id ∈ s.id_ht) :
    IdInv (plugin_reset_destroy evmax s id reset).1
      (log ++ (plugin_reset_destroy evmax s id reset).2) := by
  obtain ⟨a1, a2, a3⟩ := unregister_all_frame evmax s id
  have h1 := id_inv_frame s _ log h a1 a2 a3
  unfold plugin_reset_destroy
  dsimp only
  cases reset with
  | true =>
    rw [if_pos rfl, List.append_nil]
    dsimp only
    refine id_inv_frame _ _ log h1 rfl rfl ?_
    apply map_id_map
    intro c; split <;> rfl
  | false =>
    rw [if_neg (by decide)]
    dsimp only
    generalize plugin_unregister_all evmax s id = t at h1 a1
    obtain ⟨n1, n2, n3, n4, n5, n6, n7⟩ := h1
    have hidt : id ∈ t.id_ht := by rw [a1]; exact hid
    have hmap : ∀ x, x ∈ (t.ctxs.filter (fun c => c.id != id)).map (fun c => c.id) ↔
        x ≠ id ∧ x ∈ t.ctxs.map (fun c => c.id) := by
      intro x
      simp only [List.mem_map, List.mem_filter, bne_iff_ne, ne_eq]
      constructor
      · rintro ⟨c, ⟨hc, hne⟩, rfl⟩
        exact ⟨hne, c, hc, rfl⟩
      · rintro ⟨hne, c, hc, rfl⟩
        exact ⟨c, ⟨hc, hne⟩, rfl⟩
    refine ⟨n1.erase id, ?_, ?_, ?_, ?_, ?_, ?_⟩
    · exact n2.sublist ((List.filter_sublist _).map _)
    · intro x
      rw [n1.mem_erase_iff, hmap, n3]
    · intro x hx
      exact n4 x (List.mem_of_mem_erase hx)
    · intro x hx
      rw [installed_ids_append] at hx
      simp only [installed_ids, List.filterMap_cons, List.filterMap_nil, List.append_nil] at hx
      exact n5 x hx
    · intro x hx
      rw [uninstalled_ids_append] at hx
      simp only [uninstalled_ids, List.filterMap_cons, List.filterMap_nil, List.mem_append,
        List.mem_singleton] at hx
      rcases hx with hx | hx
      · exact n6 x hx
      · rw [hx]; exact n4 id hidt
    · intro x
      rw [n1.mem_erase_iff, n7, installed_ids_append, uninstalled_ids_append]
      simp only [installed_ids, uninstalled_ids, List.filterMap_cons, List.filterMap_nil,
        List.append_nil, List.mem_append, List.mem_singleton, not_or]
      tauto


theorem lookup_isSome (s : qemu_plugin_state) (id : Nat)
    (h : ∀ x, x ∈ s.id_ht ↔ x ∈ s.ctxs.map (fun c => c.id)) :
    (plugin_id_to_ctx_locked s id).isSome = true ↔ id ∈ s.id_ht := by
  unfold plugin_id_to_ctx_locked
  split
  · rename_i hin
    have hm := (h id).mp hin
    rw [List.mem_map] at hm
    obtain ⟨c, hc, hcid⟩ := hm
    refine ⟨fun _ => hin, fun _ => ?_⟩
    rw [List.find?_isSome]
    exact ⟨c, hc, by simp [hcid]⟩
  · rename_i hin
    simp [hin]

theorem id_inv_log_nil (s : qemu_plugin_state) (log : List Output) (h : IdInv s log) :
    IdInv s (log ++ []) := by
  rw [List.append_nil]; exact h

theorem id_inv_log_other (s : qemu_plugin_state) (log : List Output) (o : Output)
    (h : IdInv s log) (h1 : installed_ids [o] = []) (h2 : uninstalled_ids [o] = []) :
    IdInv s (log ++ [o]) := by
  unfold IdInv at *
  rw [installed_ids_append, uninstalled_ids_append, h1, h2, List.append_nil, List.append_nil]
  exact h

theorem id_inv_install (s : qemu_plugin_state) (load_ok : Bool) (log : List Output)
    (h : IdInv s log) :
    IdInv (install s load_ok).1 (log ++ (install s load_ok).2) := by
  obtain ⟨n1, n2, n3, n4, n5, n6, n7⟩ := h
  have hfresh : s.next_id ∉ s.id_ht := fun hx => Nat.lt_irrefl _ (n4 _ hx)
  have hfresh2 : s.next_id ∉ s.ctxs.map (fun c => c.id) := fun hx => hfresh ((n3 _).mpr hx)
  unfold install
  dsimp only
  cases load_ok with
  | true =>
    rw [if_pos rfl]
    dsimp only
    have hm : (List.map (fun c => if c.id = s.next_id then
          { c with installing := false } else c)
        (s.ctxs ++ [{ id := s.next_id, callbacks := fun _ => none, installing := true,
                      uninstalling := false, resetting := false }])).map (fun c => c.id)
        = s.ctxs.map (fun c => c.id) ++ [s.next_id] := by
      rw [map_id_map _ _ (by intro c; split <;> rfl), List.map_append]
      rfl
    unfold IdInv
    dsimp only
    rw [hm, installed_ids_append, uninstalled_ids_append]
    simp only [installed_ids, uninstalled_ids, List.filterMap_cons, List.filterMap_nil,
      List.append_nil, List.mem_append, List.mem_singleton, List.mem_cons, List.not_mem_nil,
      or_false]
    refine ⟨List.nodup_cons.mpr ⟨hfresh, n1⟩, ?_, ?_, ?_, ?_, ?_, ?_⟩
    · rw [List.nodup_append]
      refine ⟨n2, List.nodup_singleton _, ?_⟩
      intro a ha hb
      rw [List.mem_singleton] at hb
      rw [hb] at ha
      exact hfresh2 ha
    · intro x
      rw [n3 x]
      tauto
    · intro x hx
      rcases hx with hx | hx
      · rw [hx]; exact Nat.lt_succ_self _
      · exact Nat.lt_succ_of_lt (n4 x hx)
    · intro x hx
      rcases hx with hx | hx
      · exact Nat.lt_succ_of_lt (n5 x hx)
      · rw [hx]; exact Nat.lt_succ_self _
    · intro x hx
      exact Nat.lt_succ_of_lt (n6 x hx)
    · intro x
      rw [n7 x]
      constructor
      · rintro (hx | hx)
        · exact ⟨Or.inr hx, fun hu => Nat.lt_irrefl _ (hx ▸ n6 x hu)⟩
        · exact ⟨Or.inl hx.1, hx.2⟩
      · rintro ⟨hx | hx, hu⟩
        · exact Or.inr ⟨hx, hu⟩
        · exact Or.inl hx
  | false =>
    rw [if_neg (by decide)]
    dsimp only
    have hf : List.filter (fun c => c.id != s.next_id)
        (s.ctxs ++ [{ id := s.next_id, callbacks := fun _ => none, installing := true,
                      uninstalling := false, resetting := false }]) = s.ctxs := by
      rw [List.filter_append]
      have h1 : List.filter (fun c => c.id != s.next_id) s.ctxs = s.ctxs := by
        rw [List.filter_eq_self]
        intro c hc
        have : c.id ≠ s.next_id := fun e => hfresh2 (List.mem_map.mpr ⟨c, hc, e⟩)
        simpa using this
      rw [h1]
      simp
    unfold IdInv
    dsimp only
    rw [hf, List.erase_cons_head, installed_ids_append, uninstalled_ids_append]
    simp only [installed_ids, uninstalled_ids, List.filterMap_cons, List.filterMap_nil,
      List.append_nil]
    refine ⟨n1, n2, n3, ?_, ?_, ?_, n7⟩
    · intro x hx; exact Nat.lt_succ_of_lt (n4 x hx)
    · intro x hx; exact Nat.lt_succ_of_lt (n5 x hx)
    · intro x hx; exact Nat.lt_succ_of_lt (n6 x hx)

theorem id_inv_apply_op (evmax : Nat) (s : qemu_plugin_state) (op : Op) (log : List Output)
    (h : IdInv s log) :
    IdInv (apply_op evmax s op).1 (log ++ (apply_op evmax s op).2) := by
  have hlook := fun id => lookup_isSome s id h.2.2.1
  cases op with
  | install load_ok => exact id_inv_install s load_ok log h
  | reset_uninstall id reset in_callback =>
    show IdInv (plugin_reset_uninstall evmax s id reset in_callback).1
      (log ++ (plugin_reset_uninstall evmax s id reset in_callback).2)
    unfold plugin_reset_uninstall
    cases hl : plugin_id_to_ctx_locked s id with
    | none => exact id_inv_log_other s log _ h rfl rfl
    | some c =>
      have hid : id ∈ s.id_ht := (hlook id).mp (by rw [hl]; rfl)
      dsimp only
      cases in_callback with
      | true =>
        rw [if_pos rfl]
        apply id_inv_log_nil
        refine id_inv_frame _ _ log h rfl rfl ?_
        apply map_id_map
        intro c; split
        · split <;> rfl
        · rfl
      | false =>
        rw [if_neg (by decide)]
        exact id_inv_reset_destroy evmax s id reset log h hid
  | callback_return id =>
    show IdInv (callback_return evmax s id).1 (log ++ (callback_return evmax s id).2)
    unfold callback_return
    cases hl : plugin_id_to_ctx_locked s id with
    | none => exact id_inv_log_nil s log h
    | some c =>
      have hid : id ∈ s.id_ht := (hlook id).mp (by rw [hl]; rfl)
      dsimp only
      split
      · exact id_inv_reset_destroy evmax s id false log h hid
      · split
        · exact id_inv_reset_destroy evmax s id true log h hid
        · exact id_inv_log_nil s log h
  | register_cb id ev func =>
    show IdInv (plugin_register_cb_udata s id ev func none).1
      (log ++ (plugin_register_cb_udata s id ev func none).2)
    unfold plugin_register_cb_udata
    cases plugin_id_to_ctx_locked s id with
    | none => exact id_inv_log_other s log _ h rfl rfl
    | some c =>
      apply id_inv_log_nil
      refine id_inv_frame _ _ log h rfl rfl ?_
      apply map_id_map
      intro c; split <;> rfl
  | register_cb_udata id ev func udata =>
    show IdInv (plugin_register_cb_udata s id ev func udata).1
      (log ++ (plugin_register_cb_udata s id ev func udata).2)
    unfold plugin_register_cb_udata
    cases plugin_id_to_ctx_locked s id with
    | none => exact id_inv_log_other s log _ h rfl rfl
    | some c =>
      apply id_inv_log_nil
      refine id_inv_frame _ _ log h rfl rfl ?_
      apply map_id_map
      intro c; split <;> rfl
  | unregister_cb ctx ev =>
    show IdInv (plugin_unregister_cb__locked s ctx ev) (log ++ [])
    apply id_inv_log_nil
    obtain ⟨a1, a2, a3⟩ := unregister_frame s ctx ev
    exact id_inv_frame _ _ log h a1 a2 a3

theorem id_inv_run_ops (evmax : Nat) (ops : List Op) (s : qemu_plugin_state)
    (log : List Output) (h : IdInv s log) :
    IdInv (run_ops evmax s ops).1 (log ++ (run_ops evmax s ops).2) := by
  induction ops generalizing s log with
  | nil => exact id_inv_log_nil s log h
  | cons op ops ih =>
    have h1 := ih _ _ (id_inv_apply_op evmax s op log h)
    rw [List.append_assoc] at h1
    exact h1

theorem id_inv_init : IdInv plugin_init [] := by
  unfold IdInv plugin_init installed_ids uninstalled_ids
  simp

/-- C9: after every sequence of registry operations from the empty registry,
lookup finds a context for an id exactly when the id was reported installed
and not reported fully uninstalled, and neither the context list nor the id
index holds an id twice. -/
theorem lookup_installed_minus_uninstalled (evmax : Nat) (ops : List Op) (id : qemu_plugin_id_t) :
    ((plugin_id_to_ctx_locked (run_ops evmax plugin_init ops).1 id).isSome = true ↔
      id ∈ installed_ids (run_ops evmax plugin_init ops).2 ∧
      id ∉ uninstalled_ids (run_ops evmax plugin_init ops).2) ∧
    ((run_ops evmax plugin_init ops).1.ctxs.filter (fun c => c.id == id)).length ≤ 1 ∧
    (run_ops evmax plugin_init ops).1.id_ht.count id ≤ 1 := by
  have h := id_inv_run_ops evmax ops plugin_init [] id_inv_init
  rw [List.nil_append] at h
  obtain ⟨n1, n2, n3, n4, n5, n6, n7⟩ := h
  refine ⟨?_, ?_, ?_⟩
  · rw [lookup_isSome _ id n3]
    exact n7 id
  · have hc := List.nodup_iff_count_le_one.mp n2 id
    rw [List.count_eq_countP, List.countP_map, List.countP_eq_length_filter] at hc
    exact hc
  · exact List.nodup_iff_count_le_one.mp n1 id


/-- C10: in every registry state reached from the empty registry the active
bit of an event kind is set exactly when the kind's callback list is
non-empty (for every kind, in particular those below `QEMU_PLUGIN_EV_MAX`),
and `plugin_register_cb`, `plugin_register_cb_udata`,
`plugin_unregister_cb__locked` and `plugin_reset_uninstall` each preserve
this. -/
theorem mask_bit_iff_list_nonempty (evmax : Nat) :
    (∀ ops ev, test_bit ev (run_ops evmax plugin_init ops).1.mask = true ↔
      (run_ops evmax plugin_init ops).1.cb_lists ev ≠ []) ∧
    (∀ s, (∀ e, test_bit e s.mask = true ↔ s.cb_lists e ≠ []) →
      (∀ id ev func e, test_bit e (plugin_register_cb s id ev func).1.mask = true ↔
        (plugin_register_cb s id ev func).1.cb_lists e ≠ []) ∧
      (∀ id ev func udata e,
        test_bit e (plugin_register_cb_udata s id ev func udata).1.mask = true ↔
        (plugin_register_cb_udata s id ev func udata).1.cb_lists e ≠ []) ∧
      (∀ ctx ev e, test_bit e (plugin_unregister_cb__locked s ctx ev).mask = true ↔
        (plugin_unregister_cb__locked s ctx ev).cb_lists e ≠ []) ∧
      (∀ id reset in_callback e,
        test_bit e (plugin_reset_uninstall evmax s id reset in_callback).1.mask = true ↔
        (plugin_reset_uninstall evmax s id reset in_callback).1.cb_lists e ≠ [])) := by
  refine ⟨?_, ?_⟩
  · intro ops
    apply mask_ok_run_ops
    intro e
    simp [plugin_init, test_bit]
  · intro s h
    exact ⟨fun id ev func => mask_ok_register s id ev func none h,
      fun id ev func udata => mask_ok_register s id ev func udata h,
      fun ctx ev => mask_ok_unregister s ctx ev h,
      fun id reset in_callback => mask_ok_reset_uninstall evmax s id reset in_callback h⟩

theorem mask_bit_iff_list_nonempty_witness :
    (test_bit 2 (plugin_register_cb example_registry 1 2 100).1.mask = true ↔
      (plugin_register_cb example_registry 1 2 100).1.cb_lists 2 ≠ []) ∧
    (test_bit 2 (plugin_reset_uninstall 6 (plugin_register_cb example_registry 1 2 100).1
        1 false false).1.mask = true ↔
      (plugin_reset_uninstall 6 (plugin_register_cb example_registry 1 2 100).1
        1 false false).1.cb_lists 2 ≠ []) :=
  ⟨((mask_bit_iff_list_nonempty 6).2 example_registry
      (fun e => by simp [example_registry, run_ops, apply_op, install, plugin_init,
        test_bit])).1 1 2 100 2,
   ((mask_bit_iff_list_nonempty 6).2 (plugin_register_cb example_registry 1 2 100).1
      (fun e => ((mask_bit_iff_list_nonempty 6).2 example_registry
        (fun e => by simp [example_registry, run_ops, apply_op, install, plugin_init,
          test_bit])).1 1 2 100 e)).2.2.2 1 false false 2⟩

theorem find_map_some (l : List qemu_plugin_ctx) (f : qemu_plugin_ctx → qemu_plugin_ctx)
    (hf : ∀ c, (f c).id = c.id) (id : Nat) :
    (l.map f).find? (fun c => c.id == id) = (l.find? (fun c => c.id == id)).map f := by
  induction l with
  | nil => rfl
  | cons c l ih =>
    rw [List.map_cons, List.find?_cons, List.find?_cons, hf c]
    cases c.id == id with
    | true => rfl
    | false => exact ih

theorem lookup_some (s : qemu_plugin_state) (id : Nat) (c : qemu_plugin_ctx)
    (h : plugin_id_to_ctx_locked s id = some c) :
    id ∈ s.id_ht ∧ s.ctxs.find? (fun c => c.id == id) = some c ∧ c.id = id ∧ c ∈ s.ctxs := by
  unfold plugin_id_to_ctx_locked at h
  split at h
  · rename_i hin
    have hp := List.find?_some h
    exact ⟨hin, h, by simpa using hp, List.mem_of_find?_eq_some h⟩
  · exact absurd h (by simp)

theorem lookup_map (s t : qemu_plugin_state) (f : qemu_plugin_ctx → qemu_plugin_ctx)
    (hf : ∀ c, (f c).id = c.id) (hid : t.id_ht = s.id_ht) (hc : t.ctxs = s.ctxs.map f)
    (id : Nat) :
    plugin_id_to_ctx_locked t id = (plugin_id_to_ctx_locked s id).map f := by
  unfold plugin_id_to_ctx_locked
  rw [hid, hc, find_map_some _ f hf]
  split <;> rfl

theorem unregister_slot (s : qemu_plugin_state) (ctx ev e : Nat)
    (h : e = ev ∨ ∀ c ∈ s.ctxs, c.id = ctx → c.callbacks e = none) :
    ∀ c ∈ (plugin_unregister_cb__locked s ctx ev).ctxs, c.id = ctx → c.callbacks e = none := by
  intro c hc hcid
  unfold plugin_unregister_cb__locked at hc
  dsimp only at hc
  rw [List.mem_map] at hc
  obtain ⟨c0, hc0, rfl⟩ := hc
  by_cases h0 : c0.id = ctx
  · rw [if_pos h0]
    dsimp only
    by_cases he : e = ev
    · rw [he, Function.update_same]
    · rw [Function.update_noteq he]
      rcases h with h | h
      · exact absurd h he
      · exact h c0 hc0 h0
  · rw [if_neg h0] at hcid
    exact absurd hcid h0

theorem unregister_list (s : qemu_plugin_state) (ctx ev e : Nat)
    (h : e = ev ∨ ∀ cb ∈ s.cb_lists e, cb.ctx ≠ ctx) :
    ∀ cb ∈ (plugin_unregister_cb__locked s ctx ev).cb_lists e, cb.ctx ≠ ctx := by
  intro cb hcb
  unfold plugin_unregister_cb__locked at hcb
  dsimp only at hcb
  by_cases he : e = ev
  · rw [he, Function.update_same, List.mem_filter] at hcb
    simpa using hcb.2
  · rw [Function.update_noteq he] at hcb
    rcases h with h | h
    · exact absurd h he
    · exact h cb hcb

theorem unregister_all_cleared (evs : List Nat) (s : qemu_plugin_state) (ctx e : Nat)
    (h : e ∈ evs ∨ ((∀ c ∈ s.ctxs, c.id = ctx → c.callbacks e = none) ∧
      ∀ cb ∈ s.cb_lists e, cb.ctx ≠ ctx)) :
    (∀ c ∈ (evs.foldl (fun t ev => plugin_unregister_cb__locked t ctx ev) s).ctxs,
      c.id = ctx → c.callbacks e = none) ∧
    ∀ cb ∈ (evs.foldl (fun t ev => plugin_unregister_cb__locked t ctx ev) s).cb_lists e,
      cb.ctx ≠ ctx := by
  induction evs generalizing s with
  | nil =>
    rcases h with h | h
    · exact absurd h (List.not_mem_nil _)
    · exact h
  | cons ev evs ih =>
    rw [List.foldl_cons]
    apply ih
    rcases h with h | h
    · rcases List.mem_cons.mp h with h1 | h1
      · exact Or.inr ⟨unregister_slot s ctx ev e (Or.inl h1),
          unregister_list s ctx ev e (Or.inl h1)⟩
      · exact Or.inl h1
    · exact Or.inr ⟨unregister_slot s ctx ev e (Or.inr h.1),
        unregister_list s ctx ev e (Or.inr h.2)⟩

/-- What carrying out a reset leaves of a context that lookup finds. -/
theorem reset_destroy_true (evmax : Nat) (s : qemu_plugin_state) (id : Nat)
    (hid : (plugin_id_to_ctx_locked s id).isSome = true) :
    (∃ c, plugin_id_to_ctx_locked (plugin_reset_destroy evmax s id true).1 id = some c ∧
      c.id = id ∧ c.resetting = false ∧
      ∀ ev, ev < evmax → c.callbacks ev = none) ∧
    (∀ ev, ev < evmax → ∀ cb ∈ (plugin_reset_destroy evmax s id true).1.cb_lists ev,
      cb.ctx ≠ id) := by
  obtain ⟨a1, a2, a3⟩ := unregister_all_frame evmax s id
  have hclr : ∀ e, e < evmax →
      (∀ c ∈ (plugin_unregister_all evmax s id).ctxs, c.id = id → c.callbacks e = none) ∧
      ∀ cb ∈ (plugin_unregister_all evmax s id).cb_lists e, cb.ctx ≠ id := by
    intro e he
    exact unregister_all_cleared (List.range evmax) s id e (Or.inl (List.mem_range.mpr he))
  have hsome1 : (plugin_id_to_ctx_locked (plugin_unregister_all evmax s id) id).isSome = true := by
    unfold plugin_id_to_ctx_locked at hid ⊢
    rw [a1]
    split
    · rename_i hin
      rw [if_pos hin] at hid
      rw [List.find?_isSome] at hid ⊢
      obtain ⟨c, hc, hp⟩ := hid
      have hm : id ∈ (plugin_unregister_all evmax s id).ctxs.map (fun c => c.id) := by
        rw [a3]; exact List.mem_map.mpr ⟨c, hc, by simpa using hp⟩
      obtain ⟨c2, hc2, hp2⟩ := List.mem_map.mp hm
      exact ⟨c2, hc2, by simpa using hp2⟩
    · rename_i hin
      rw [if_neg hin] at hid
      exact hid
  obtain ⟨c1, hc1⟩ := Option.isSome_iff_exists.mp hsome1
  obtain ⟨-, -, hc1id, hc1mem⟩ := lookup_some _ id c1 hc1
  unfold plugin_reset_destroy
  dsimp only
  rw [if_pos rfl]
  dsimp only
  constructor
  · refine ⟨{ c1 with resetting := false }, ?_, ?_⟩
    · have hl := lookup_map (plugin_unregister_all evmax s id)
        { plugin_unregister_all evmax s id with
          ctxs := (plugin_unregister_all evmax s id).ctxs.map (fun c =>
            if c.id = id then { c with resetting := false } else c) }
        (fun c => if c.id = id then { c with resetting := false } else c)
        (by intro c; dsimp only; split <;> rfl) rfl rfl id
      rw [hl, hc1, Option.map_some', if_pos hc1id]
    · exact ⟨hc1id, rfl, fun ev hev => (hclr ev hev).1 c1 hc1mem hc1id⟩
  · intro ev hev
    exact (hclr ev hev).2

theorem register_after (s : qemu_plugin_state) (id ev func : Nat) (udata : Option Nat)
    (c : qemu_plugin_ctx) (hc : plugin_id_to_ctx_locked s id = some c) :
    (plugin_register_cb_udata s id ev func udata).2 = [] ∧
    (plugin_register_cb_udata s id ev func udata).1.cb_lists ev =
      s.cb_lists ev ++ [{ ctx := id, func := func, udata := udata }] ∧
    plugin_id_to_ctx_locked (plugin_register_cb_udata s id ev func udata).1 id =
      some { c with callbacks :=
        Function.update c.callbacks ev (some { ctx := id, func := func, udata := udata }) } := by
  obtain ⟨-, -, hcid, -⟩ := lookup_some s id c hc
  have hl := lookup_map s
    { s with
      cb_lists := Function.update s.cb_lists ev
        (s.cb_lists ev ++ [{ ctx := id, func := func, udata := udata }]),
      mask := set_bit ev s.mask,
      ctxs := s.ctxs.map (fun c => if c.id = id then
        { c with callbacks :=
          Function.update c.callbacks ev (some { ctx := id, func := func, udata := udata }) }
        else c) }
    (fun c => if c.id = id then
      { c with callbacks :=
        Function.update c.callbacks ev (some { ctx := id, func := func, udata := udata }) }
      else c)
    (by intro c; dsimp only; split <;> rfl) rfl rfl id
  unfold plugin_register_cb_udata
  rw [hc]
  dsimp only
  refine ⟨rfl, ?_, ?_⟩
  · rw [Function.update_same]
  · rw [hl, hc, Option.map_some', if_pos hcid]

theorem reset_completed_eq (evmax : Nat) (s : qemu_plugin_state) (id : Nat)
    (in_callback : Bool)
    (hid : (plugin_id_to_ctx_locked s id).isSome = true)
    (hu : in_callback = true →
      ∀ c, plugin_id_to_ctx_locked s id = some c → c.uninstalling = false) :
    ∃ t, (plugin_id_to_ctx_locked t id).isSome = true ∧
      reset_completed evmax s id in_callback = (plugin_reset_destroy evmax t id true).1 := by
  obtain ⟨c, hc⟩ := Option.isSome_iff_exists.mp hid
  obtain ⟨-, -, hcid, -⟩ := lookup_some s id c hc
  unfold reset_completed
  cases in_callback with
  | false =>
    refine ⟨s, hid, ?_⟩
    rw [if_neg (by decide)]
    unfold plugin_reset_uninstall
    rw [hc]
    dsimp only
    rw [if_neg (by decide)]
  | true =>
    have hun : c.uninstalling = false := hu rfl c hc
    have hl := lookup_map s
      { s with ctxs := s.ctxs.map (fun c =>
          if c.id = id then
            (if true = true then { c with resetting := true } else { c with uninstalling := true })
          else c) }
      (fun c =>
        if c.id = id then
          (if true = true then { c with resetting := true } else { c with uninstalling := true })
        else c)
      (by intro c; dsimp only; split <;> rfl) rfl rfl id
    rw [hc, Option.map_some', if_pos hcid, if_pos rfl] at hl
    have ht : (plugin_reset_uninstall evmax s id true true).1 =
        { s with ctxs := s.ctxs.map (fun c =>
          if c.id = id then
            (if true = true then { c with resetting := true } else { c with uninstalling := true })
          else c) } := by
      unfold plugin_reset_uninstall
      rw [hc]
      dsimp only
      rw [if_pos rfl]
    refine ⟨_, by rw [hl]; rfl, ?_⟩
    rw [if_pos rfl, ht]
    unfold callback_return
    rw [hl]
    dsimp only
    rw [hun, if_neg (by decide), if_pos rfl]

/-- C11, amended: a reset of a context that lookup finds
(`plugin_reset_uninstall` with `reset` true), carried out at once, or at the
return of the running callback when it is requested from inside one of the
context's own callbacks and no uninstall of the context is pending then,
leaves every event callback slot of the context empty and no entry of the
context in an event's list, for all event kinds below `QEMU_PLUGIN_EV_MAX`;
lookup still finds the context under the same id, no longer resetting; and a
following `plugin_register_cb` for that id reports no failure, appends the
callback for the id and fills the context's slot. -/
theorem reset_keeps_id (evmax : Nat) (s : qemu_plugin_state) (id : qemu_plugin_id_t)
    (in_callback : Bool)
    (hid : (plugin_id_to_ctx_locked s id).isSome = true)
    (hu : in_callback = true →
      ∀ c, plugin_id_to_ctx_locked s id = some c → c.uninstalling = false) :
    (∃ c1, plugin_id_to_ctx_locked (reset_completed evmax s id in_callback) id = some c1 ∧
      c1.id = id ∧ c1.resetting = false ∧
      ∀ ev, ev < evmax → c1.callbacks ev = none) ∧
    (∀ ev, ev < evmax → ∀ cb ∈ (reset_completed evmax s id in_callback).cb_lists ev,
      cb.ctx ≠ id) ∧
    (∀ ev func,
      (plugin_register_cb (reset_completed evmax s id in_callback) id ev func).2 = [] ∧
      (plugin_register_cb (reset_completed evmax s id in_callback) id ev func).1.cb_lists ev =
        (reset_completed evmax s id in_callback).cb_lists ev
          ++ [{ ctx := id, func := func, udata := none }] ∧
      ∃ c2,
        plugin_id_to_ctx_locked
          (plugin_register_cb (reset_completed evmax s id in_callback) id ev func).1 id
          = some c2 ∧
        c2.id = id ∧ c2.callbacks ev = some { ctx := id, func := func, udata := none }) := by
  obtain ⟨t, ht, heq⟩ := reset_completed_eq evmax s id in_callback hid hu
  rw [heq]
  obtain ⟨⟨c1, h1, h2, h3, h4⟩, hlists⟩ := reset_destroy_true evmax t id ht
  refine ⟨⟨c1, h1, h2, h3, h4⟩, hlists, ?_⟩
  intro ev func
  obtain ⟨r1, r2, r3⟩ := register_after (plugin_reset_destroy evmax t id true).1 id ev func none
    c1 h1
  refine ⟨r1, r2, _, r3, h2, ?_⟩
  dsimp only
  rw [Function.update_same]

theorem reset_keeps_id_witness :
    example_registry_subscribed.cb_lists 2 = [{ ctx := 1, func := 100, udata := none }] ∧
    (∀ ev, ev < 6 → ∀ cb ∈ (reset_completed 6 example_registry_subscribed 1 false).cb_lists ev,
      cb.ctx ≠ 1) ∧
    (plugin_register_cb (reset_completed 6 example_registry_subscribed 1 true) 1 2 500).2 = [] :=
  ⟨by decide,
   (reset_keeps_id 6 example_registry_subscribed 1 false (by decide)
      (fun h => absurd h (by decide))).2.1,
   ((reset_keeps_id 6 example_registry_subscribed 1 true (by decide)
      (fun _ c h => Option.some.inj h ▸ rfl)).2.2 2 500).1⟩

/-- C11 as stated fails when an uninstall of the context is pending: a reset
requested from inside the running callback is only recorded (right after the
call the slot of event 2 is still filled) and is carried out at the return of
the callback together with the uninstall, after which lookup no longer finds
the id and `plugin_register_cb` reports it as not found. -/
theorem reset_with_uninstall_pending_removes :
    (plugin_id_to_ctx_locked example_registry_uninstalling 1).isSome = true ∧
    ((plugin_id_to_ctx_locked
      (plugin_reset_uninstall 6 example_registry_uninstalling 1 true true).1 1).bind
        (fun c => c.callbacks 2)).isSome = true ∧
    (plugin_id_to_ctx_locked
      (reset_completed 6 example_registry_uninstalling 1 true) 1).isSome = false ∧
    (plugin_register_cb (reset_completed 6 example_registry_uninstalling 1 true) 1 2 500).2 =
      [Output.not_found 1] := by
  decide

theorem unregister_score_frame (s : qemu_plugin_state) (ctx ev : Nat) :
    (plugin_unregister_cb__locked s ctx ev).scoreboards = s.scoreboards ∧
    (plugin_unregister_cb__locked s ctx ev).num_vcpus = s.num_vcpus :=
  ⟨rfl, rfl⟩

theorem unregister_all_score_frame (evmax : Nat) (s : qemu_plugin_state) (ctx : Nat) :
    (plugin_unregister_all evmax s ctx).scoreboards = s.scoreboards ∧
    (plugin_unregister_all evmax s ctx).num_vcpus = s.num_vcpus := by
  unfold plugin_unregister_all
  generalize List.range evmax = evs
  induction evs generalizing s with
  | nil => exact ⟨rfl, rfl⟩
  | cons ev evs ih =>
    rw [List.foldl_cons]
    exact ih (plugin_unregister_cb__locked s ctx ev)

theorem reset_destroy_score_frame (evmax : Nat) (s : qemu_plugin_state) (id : Nat)
    (reset : Bool) :
    (plugin_reset_destroy evmax s id reset).1.scoreboards = s.scoreboards ∧
    (plugin_reset_destroy evmax s id reset).1.num_vcpus = s.num_vcpus := by
  unfold plugin_reset_destroy
  dsimp only
  cases reset with
  | true => exact unregister_all_score_frame evmax s id
  | false => exact unregister_all_score_frame evmax s id

theorem apply_op_score_frame (evmax : Nat) (s : qemu_plugin_state) (op : Op) :
    (apply_op evmax s op).1.scoreboards = s.scoreboards ∧
    (apply_op evmax s op).1.num_vcpus = s.num_vcpus := by
  cases op with
  | install load_ok =>
    show (install s load_ok).1.scoreboards = _ ∧ (install s load_ok).1.num_vcpus = _
    unfold install
    dsimp only
    cases load_ok <;> exact ⟨rfl, rfl⟩
  | reset_uninstall id reset in_callback =>
    show (plugin_reset_uninstall evmax s id reset in_callback).1.scoreboards = _ ∧
      (plugin_reset_uninstall evmax s id reset in_callback).1.num_vcpus = _
    unfold plugin_reset_uninstall
    cases plugin_id_to_ctx_locked s id with
    | none => exact ⟨rfl, rfl⟩
    | some c =>
      dsimp only
      cases in_callback with
      | true => exact ⟨rfl, rfl⟩
      | false => exact reset_destroy_score_frame evmax s id reset
  | callback_return id =>
    show (callback_return evmax s id).1.scoreboards = _ ∧
      (callback_return evmax s id).1.num_vcpus = _
    unfold callback_return
    cases plugin_id_to_ctx_locked s id with
    | none => exact ⟨rfl, rfl⟩
    | some c =>
      dsimp only
      split
      · exact reset_destroy_score_frame evmax s id false
      · split
        · exact reset_destroy_score_frame evmax s id true
        · exact ⟨rfl, rfl⟩
  | register_cb id ev func =>
    show (plugin_register_cb_udata s id ev func none).1.scoreboards = _ ∧
      (plugin_register_cb_udata s id ev func none).1.num_vcpus = _
    unfold plugin_register_cb_udata
    cases plugin_id_to_ctx_locked s id <;> exact ⟨rfl, rfl⟩
  | register_cb_udata id ev func udata =>
    show (plugin_register_cb_udata s id ev func udata).1.scoreboards = _ ∧
      (plugin_register_cb_udata s id ev func udata).1.num_vcpus = _
    unfold plugin_register_cb_udata
    cases plugin_id_to_ctx_locked s id <;> exact ⟨rfl, rfl⟩
  | unregister_cb ctx ev => exact ⟨rfl, rfl⟩

/-- The capacity invariant of the scoreboards and the count of started vcpus,
through one operation. -/
theorem capacity_apply (evmax : Nat) (s : qemu_plugin_state) (op : RegistryOp)
    (h : ∀ score ∈ s.scoreboards, s.num_vcpus ≤ score.data.length) :
    (∀ score ∈ (apply_registry_op evmax s op).scoreboards,
      (apply_registry_op evmax s op).num_vcpus ≤ score.data.length) ∧
    (apply_registry_op evmax s op).num_vcpus = s.num_vcpus + vcpus_started [op] := by
  cases op with
  | registry op =>
    obtain ⟨a1, a2⟩ := apply_op_score_frame evmax s op
    show (∀ score ∈ (apply_op evmax s op).1.scoreboards,
      (apply_op evmax s op).1.num_vcpus ≤ score.data.length) ∧
      (apply_op evmax s op).1.num_vcpus = s.num_vcpus + 0
    rw [a1, a2]
    exact ⟨h, rfl⟩
  | vcpu_start =>
    refine ⟨?_, rfl⟩
    intro score hs
    show s.num_vcpus + 1 ≤ score.data.length
    have hs2 : score ∈ s.scoreboards.map (scoreboard_grow (s.num_vcpus + 1)) := hs
    rw [List.mem_map] at hs2
    obtain ⟨sc0, -, rfl⟩ := hs2
    unfold scoreboard_grow
    dsimp only
    rw [List.length_append, List.length_replicate]
    omega
  | scoreboard_new element_size =>
    refine ⟨?_, rfl⟩
    intro score hs
    show s.num_vcpus ≤ score.data.length
    have hs2 : score ∈ (plugin_scoreboard_new s element_size).2 :: s.scoreboards := hs
    rcases List.mem_cons.mp hs2 with h1 | h1
    · rw [h1]
      show s.num_vcpus ≤ (List.replicate s.num_vcpus 0).length
      rw [List.length_replicate]
    · exact h score h1
  | scoreboard_free handle =>
    refine ⟨?_, rfl⟩
    intro score hs
    have hs2 : score ∈ s.scoreboards.filter (fun score => score.handle != handle) := hs
    exact h score (List.mem_filter.mp hs2).1
  | slot_write handle vcpu_index value =>
    refine ⟨?_, rfl⟩
    intro score hs
    show s.num_vcpus ≤ score.data.length
    have hs2 : score ∈ s.scoreboards.map (fun score =>
        if score.handle = handle then { score with data := score.data.set vcpu_index value }
        else score) := hs
    rw [List.mem_map] at hs2
    obtain ⟨sc0, hsc0, rfl⟩ := hs2
    split
    · dsimp only
      rw [List.length_set]
      exact h sc0 hsc0
    · exact h sc0 hsc0

theorem capacity_run (evmax : Nat) (ops : List RegistryOp) (s : qemu_plugin_state)
    (h : ∀ score ∈ s.scoreboards, s.num_vcpus ≤ score.data.length) :
    (∀ score ∈ (run_registry_ops evmax s ops).scoreboards,
      (run_registry_ops evmax s ops).num_vcpus ≤ score.data.length) ∧
    (run_registry_ops evmax s ops).num_vcpus = s.num_vcpus + vcpus_started ops := by
  induction ops generalizing s with
  | nil => exact ⟨h, rfl⟩
  | cons op ops ih =>
    obtain ⟨a1, a2⟩ := capacity_apply evmax s op h
    obtain ⟨b1, b2⟩ := ih (apply_registry_op evmax s op) a1
    refine ⟨b1, ?_⟩
    have hc : vcpus_started (op :: ops) = vcpus_started [op] + vcpus_started ops := by
      unfold vcpus_started
      rw [← List.countP_append]
      rfl
    show (run_registry_ops evmax (apply_registry_op evmax s op) ops).num_vcpus = _
    rw [b2, a2, hc, Nat.add_assoc]

theorem foldl_set_length (order : List Nat) (d : List Nat) :
    (order.foldl (fun d j => d.set j j) d).length = d.length := by
  induction order generalizing d with
  | nil => rfl
  | cons j rest ih => rw [List.foldl_cons, ih, List.length_set]

theorem foldl_set_other (order : List Nat) (d : List Nat) (i : Nat) (h : i ∉ order) :
    (order.foldl (fun d j => d.set j j) d)[i]? = d[i]? := by
  induction order generalizing d with
  | nil => rfl
  | cons j rest ih =>
    have hj : j ≠ i := fun e => h (e ▸ List.mem_cons_self j rest)
    rw [List.foldl_cons, ih _ (fun hm => h (List.mem_cons_of_mem j hm)),
      List.getElem?_set_ne hj]

/-- Slots written in any order, each with its own index, read back their
index. -/
theorem foldl_set_own (order : List Nat) (d : List Nat) (i : Nat) (hi : i < d.length)
    (h : i ∈ order) :
    (order.foldl (fun d j => d.set j j) d)[i]? = some i := by
  induction order generalizing d with
  | nil => exact absurd h (List.not_mem_nil _)
  | cons j rest ih =>
    rw [List.foldl_cons]
    by_cases hr : i ∈ rest
    · exact ih _ (by rw [List.length_set]; exact hi) hr
    · have hj : i = j := by
        rcases List.mem_cons.mp h with e | e
        · exact e
        · exact absurd e hr
      rw [foldl_set_other rest _ i hr, ← hj, List.getElem?_set, if_pos rfl, if_pos hi]

theorem find_score_map (l : List qemu_plugin_scoreboard)
    (f : qemu_plugin_scoreboard → qemu_plugin_scoreboard)
    (hf : ∀ score, (f score).handle = score.handle) (handle : Nat) :
    (l.map f).find? (fun score => score.handle == handle)
      = (l.find? (fun score => score.handle == handle)).map f := by
  induction l with
  | nil => rfl
  | cons c l ih =>
    rw [List.map_cons, List.find?_cons, List.find?_cons, hf c]
    cases c.handle == handle with
    | true => rfl
    | false => exact ih

theorem find_scoreboard_write (s : qemu_plugin_state) (handle i v : Nat) :
    (scoreboard_write s handle i v).scoreboards.find? (fun score => score.handle == handle) =
      (s.scoreboards.find? (fun score => score.handle == handle)).map
        (fun score => { score with data := score.data.set i v }) := by
  unfold scoreboard_write
  dsimp only
  rw [find_score_map _ _ (by intro score; split <;> rfl)]
  cases hf : s.scoreboards.find? (fun score => score.handle == handle) with
  | none => rfl
  | some score =>
    have hh : score.handle = handle := by simpa using List.find?_some hf
    rw [Option.map_some', Option.map_some', if_pos hh]

theorem find_write_own_index (order : List Nat) (s : qemu_plugin_state) (handle : Nat) :
    (write_own_index s handle order).scoreboards.find? (fun score => score.handle == handle) =
      (s.scoreboards.find? (fun score => score.handle == handle)).map
        (fun score => { score with data := order.foldl (fun d j => d.set j j) score.data }) := by
  unfold write_own_index
  induction order generalizing s with
  | nil =>
    rw [List.foldl_nil]
    cases s.scoreboards.find? (fun score => score.handle == handle) <;> rfl
  | cons j rest ih =>
    rw [List.foldl_cons, ih, find_scoreboard_write]
    cases s.scoreboards.find? (fun score => score.handle == handle) <;> rfl

/-- C12: after any sequence of registry and scoreboard operations from the
empty registry in which N vcpus were started, `num_vcpus` is N, every
scoreboard that `plugin_scoreboard_new` returns and every scoreboard
registered in the `scoreboards` list has at least N elements, and when the
vcpus below N, in any order, each store their own index in their own slot of
a registered scoreboard, every slot `i` below N reads back `i`. -/
theorem scoreboard_capacity_and_slots (evmax : Nat) (ops : List RegistryOp) :
    plugin_num_vcpus (run_registry_ops evmax plugin_init ops) = vcpus_started ops ∧
    (∀ element_size,
      vcpus_started ops ≤
        (plugin_scoreboard_new (run_registry_ops evmax plugin_init ops) element_size).2.data.length ∧
      (plugin_scoreboard_new (run_registry_ops evmax plugin_init ops) element_size).2 ∈
        (plugin_scoreboard_new (run_registry_ops evmax plugin_init ops)
          element_size).1.scoreboards) ∧
    (∀ score ∈ (run_registry_ops evmax plugin_init ops).scoreboards,
      vcpus_started ops ≤ score.data.length) ∧
    (∀ score ∈ (run_registry_ops evmax plugin_init ops).scoreboards,
      ∀ order : List Nat, order.Perm (List.range (vcpus_started ops)) →
        ∀ i, i < vcpus_started ops →
          scoreboard_read
            (write_own_index (run_registry_ops evmax plugin_init ops) score.handle order)
            score.handle i = some i) := by
  obtain ⟨hcap, hnum⟩ := capacity_run evmax ops plugin_init
    (fun score hs => absurd hs (List.not_mem_nil _))
  have hnum2 : (run_registry_ops evmax plugin_init ops).num_vcpus = vcpus_started ops := by
    rw [hnum]; exact Nat.zero_add _
  rw [hnum2] at hcap
  refine ⟨hnum2, ?_, hcap, ?_⟩
  · intro element_size
    constructor
    · show vcpus_started ops ≤
        (List.replicate (run_registry_ops evmax plugin_init ops).num_vcpus 0).length
      rw [List.length_replicate, hnum2]
    · exact List.mem_cons_self _ _
  · intro score hs order hperm i hi
    have hmem : i ∈ order := (hperm.mem_iff).mpr (List.mem_range.mpr hi)
    have hsome : ((run_registry_ops evmax plugin_init ops).scoreboards.find?
        (fun sc => sc.handle == score.handle)).isSome = true := by
      rw [List.find?_isSome]
      exact ⟨score, hs, by simp⟩
    obtain ⟨sc, hsc⟩ := Option.isSome_iff_exists.mp hsome
    have hlen : i < sc.data.length :=
      Nat.lt_of_lt_of_le hi (hcap sc (List.mem_of_find?_eq_some hsc))
    unfold scoreboard_read
    rw [find_write_own_index, hsc, Option.map_some']
    exact foldl_set_own order sc.data i hlen hmem

theorem scoreboard_capacity_and_slots_witness :
    scoreboard_read
      (write_own_index (run_registry_ops 6 plugin_init example_scoreboard_ops) 0 [2, 0, 1])
      0 1 = some 1 :=
  (scoreboard_capacity_and_slots 6 example_scoreboard_ops).2.2.2
    { handle := 0, element_size := 8, data := [0, 0, 0] } (by decide) [2, 0, 1] (by decide)
    1 (by decide)

end Plugin
